import Mathlib

/-!
Verification of the media garbage-collection / reconciliation engine of the
atstore-api-v2 backend (src/services/scheduler.service.ts), shallowly embedded
in Lean.  The embedding models:

* the document database (products with a `thumbnail` field and an `images`
  array, categories with a `thumbnail` field),
* the object-storage bucket (a list of keys),
* the local temp staging directory (a list of entries with mtime / size /
  kind), and
* the environment's failure behaviour (which I/O calls throw), so that the
  error-handling paths of the engine are part of the model.

Every run function returns, besides its result value, the final world state,
the trace of I/O operations issued, and the final value of the in-process
exclusivity flag.
-/

namespace AtStore

/-- Boolean prefix test on character lists; `isPre p s` holds when `p` is a
prefix of `s`.  Models JavaScript `String.prototype.startsWith` (and the
anchored regular expressions `^...` used in the database queries). -/
def isPre : List Char → List Char → Bool
  | [], _ => true
  | _ :: _, [] => false
  | a :: as, b :: bs => a == b && isPre as bs

/-- `startsW s p` : the string `s` starts with `p` (JS `s.startsWith(p)`). -/
def startsW (s p : String) : Bool := isPre p.data s.data

/-- Lower-casing a string character by character; models JS
`String.prototype.toLowerCase` / the `i` flag of the anchored regexes (the
managed prefixes are ASCII). -/
def lowerStr (s : String) : String := ⟨s.data.map Char.toLower⟩

/-- Case-insensitive prefix test, modelling `$regex: ^p, $options: "i"`. -/
def startsWCI (s p : String) : Bool := startsW (lowerStr s) (lowerStr p)

/-- `PRODUCT_IMAGE_PREFIX` from media.controller.ts. -/
def productImagePre : String := "img/product/"

/-- `PRODUCT_THUMBNAIL_PREFIX` from media.controller.ts. -/
def productThumbnailPre : String := "img/product/thumbnail/"

/-- `CATEGORY_THUMBNAIL_PREFIX` from media.controller.ts. -/
def categoryThumbnailPre : String := "img/category/thumbnail/"

/-- A key is managed when it lies under one of the three managed prefixes. -/
def managedKey (k : String) : Bool :=
  startsW k productImagePre || startsW k productThumbnailPre ||
    startsW k categoryThumbnailPre

/-- The media-bearing projection of a product document
(`select("images thumbnail")`). -/
structure Product where
  thumbnail : Option String
  images : List String
deriving DecidableEq

/-- The media-bearing projection of a category document
(`select("thumbnail")`). -/
structure Category where
  thumbnail : Option String
deriving DecidableEq

/-- The two externally shared stores the engine reconciles. -/
structure World where
  products : List Product
  categories : List Category
  bucket : List String
deriving DecidableEq

/-- Result shape of `cleanupMediaFiles`. -/
structure MediaResult where
  orphanedR2Files : Nat
  danglingSavedReferences : Nat
deriving DecidableEq

/-- I/O operations the engine can issue, recorded in run traces. -/
inductive Op where
  | dbQuery : Op
  | listR2 : String → List String → Op
  | deleteBatch : List String → Op
  | pullImages : List String → Op
  | setProductThumbsNull : List String → Op
  | setCategoryThumbsNull : List String → Op
  | mkdirTemp : Op
  | statEntry : String → Op
  | unlinkEntry : String → Op
deriving DecidableEq

/-- Operations that mutate storage, the database, or the filesystem. -/
def Op.isMutating : Op → Bool
  | .deleteBatch _ => true
  | .pullImages _ => true
  | .setProductThumbsNull _ => true
  | .setCategoryThumbsNull _ => true
  | .unlinkEntry _ => true
  | .mkdirTemp => true
  | _ => false

/-- Which I/O calls of a media-reconciliation run throw.  `batchFailsAt i`
makes the `i`-th `DeleteObjects` call reject; the boolean flags make the
database snapshot query, the bucket listing, and the three grouped
reference-cleanup updates reject. -/
structure Env where
  dbFails : Bool
  listFails : Bool
  batchFailsAt : Option Nat
  pullFails : Bool
  prodThumbFails : Bool
  catThumbFails : Bool
deriving DecidableEq

/-- The failure-free environment. -/
def okEnv : Env :=
  { dbFails := false, listFails := false, batchFailsAt := none,
    pullFails := false, prodThumbFails := false, catThumbFails := false }

/-- JS `Set.prototype.add`: append the key unless already present
(insertion-order semantics). -/
def sadd (s : List String) (k : String) : List String :=
  if k ∈ s then s else s ++ [k]

/-- Fold a list into an accumulator set, adding the elements satisfying `q`
(the shape of every collection loop in the service). -/
def addAllIf (q : String → Bool) (xs : List String) (acc : List String) :
    List String :=
  xs.foldl (fun a k => if q k then sadd a k else a) acc

/-- The `$or` filter of the product snapshot query:
`images` exists and is non-empty, or `thumbnail` matches
`^(PRODUCT_IMAGE_PREFIX|PRODUCT_THUMBNAIL_PREFIX)` case-insensitively. -/
def productQueryMatches (p : Product) : Bool :=
  !p.images.isEmpty ||
    (match p.thumbnail with
     | some t => startsWCI t productImagePre || startsWCI t productThumbnailPre
     | none => false)

/-- The filter of the category snapshot query:
`thumbnail` matches `^CATEGORY_THUMBNAIL_PREFIX` case-insensitively. -/
def categoryQueryMatches (c : Category) : Bool :=
  match c.thumbnail with
  | some t => startsWCI t categoryThumbnailPre
  | none => false

/-- Per-product step of the reference collector: add the thumbnail when it
starts with the product-image or product-thumbnail prefix, then add every
`images` entry starting with the product-image prefix. -/
def collectProduct (acc : List String) (p : Product) : List String :=
  let acc1 :=
    match p.thumbnail with
    | some t =>
        if startsW t productImagePre || startsW t productThumbnailPre then
          sadd acc t
        else acc
    | none => acc
  addAllIf (fun k => startsW k productImagePre) p.images acc1

/-- Per-category step of the reference collector. -/
def collectCategory (acc : List String) (c : Category) : List String :=
  match c.thumbnail with
  | some t => if startsW t categoryThumbnailPre then sadd acc t else acc
  | none => acc

/-- `getMediaKeysFromDatabase`: the referenced-key snapshot, as a
deduplicated list in insertion order (JS `Set<string>`). -/
def getMediaKeysFromDatabase (w : World) : List String :=
  (w.categories.filter categoryQueryMatches).foldl collectCategory
    ((w.products.filter productQueryMatches).foldl collectProduct [])

/-- `getR2KeysWithPrefix`: add to the accumulator every bucket key under the
given prefix (pagination is transparent: the loop drains all pages). -/
def getR2KeysWithPre (w : World) (p : String) (acc : List String) :
    List String :=
  addAllIf (fun k => startsW k p) w.bucket acc

/-- `getMediaKeysFromR2`: the stored-key snapshot — all three managed
prefixes listed in order into one JS `Set`. -/
def getMediaKeysFromR2 (w : World) : List String :=
  getR2KeysWithPre w categoryThumbnailPre
    (getR2KeysWithPre w productThumbnailPre
      (getR2KeysWithPre w productImagePre []))

/-- The keys a single listing call returns for a prefix (the union of all
pages of `ListObjectsV2` under that prefix). -/
def listedKeys (w : World) (p : String) : List String :=
  w.bucket.filter (fun k => startsW k p)

/-- Splitting a key list into consecutive slices of at most 1000, the shape
of the `for (let i = 0; i < n; i += batchSize)` loop of
`deleteOrphanedR2Files`.  The first argument is fuel (any value at least the
list length gives the loop's behaviour); `chunks` instantiates it. -/
def chunksAux : Nat → List String → List (List String)
  | 0, _ => []
  | _ + 1, [] => []
  | f + 1, x :: xs => ((x :: xs).take 1000) :: chunksAux f ((x :: xs).drop 1000)

/-- The batches `deleteOrphanedR2Files` issues, in order. -/
def chunks (xs : List String) : List (List String) :=
  chunksAux xs.length xs

/-- Issue the delete batches sequentially, starting at batch index `i`.
Each `DeleteObjects` call is recorded in the trace; a call that rejects
(`batchFailsAt = some i`) deletes nothing and aborts the loop — the source
logs the error and rethrows it (`throw error`), so later batches are never
issued. -/
def runBatches (failAt : Option Nat) :
    List (List String) → Nat → World → List Op →
      Except (World × List Op) (World × List Op)
  | [], _, w, tr => .ok (w, tr)
  | b :: bs, i, w, tr =>
      let tr1 := tr ++ [Op.deleteBatch b]
      if failAt = some i then .error (w, tr1)
      else
        runBatches failAt bs (i + 1)
          { w with bucket := w.bucket.filter (fun k => !(decide (k ∈ b))) } tr1

/-- `deleteOrphanedR2Files`: batch the keys and issue the deletes. -/
def deleteOrphanedR2Files (failAt : Option Nat) (orphanedKeys : List String)
    (w : World) (tr : List Op) : Except (World × List Op) (World × List Op) :=
  runBatches failAt (chunks orphanedKeys) 0 w tr

/-- `$pull`-from-array update: `Product.updateMany({images: {$in: ks}},
{$pull: {images: {$in: ks}}})`. -/
def pullImagesUpd (ks : List String) (ps : List Product) : List Product :=
  ps.map fun p =>
    if p.images.any (fun k => decide (k ∈ ks)) then
      { p with images := p.images.filter (fun k => !(decide (k ∈ ks))) }
    else p

/-- Set-to-null update: `Product.updateMany({thumbnail: {$in: ks}},
{$set: {thumbnail: null}})`. -/
def setProductThumbNull (ks : List String) (ps : List Product) :
    List Product :=
  ps.map fun p =>
    match p.thumbnail with
    | some t => if t ∈ ks then { p with thumbnail := none } else p
    | none => p

/-- Set-to-null update: `Category.updateMany({thumbnail: {$in: ks}},
{$set: {thumbnail: null}})`. -/
def setCategoryThumbNull (ks : List String) (cs : List Category) :
    List Category :=
  cs.map fun c =>
    match c.thumbnail with
    | some t => if t ∈ ks then { c with thumbnail := none } else c
    | none => c

/-- `cleanupDanglingDatabaseReferences`: split the dangling keys by prefix
into three field groups and run the three bulk updates via `Promise.all`.
Every non-empty group's update is started (its operation is recorded and, if
its own call does not reject, its effect is applied) regardless of the other
groups' outcomes — promises run eagerly and `Promise.all` does not cancel or
roll back.  When any started update rejects, the combined promise rejects, so
the function propagates the error (there is no per-group catch in the
source). -/
def cleanupDangling (env : Env) (danglingKeys : List String) (w : World)
    (tr : List Op) : Except (World × List Op) (World × List Op) :=
  if danglingKeys.isEmpty then .ok (w, tr)
  else
    let pImg := danglingKeys.filter (fun k => startsW k productImagePre)
    let pThm := danglingKeys.filter (fun k => startsW k productThumbnailPre)
    let cThm := danglingKeys.filter (fun k => startsW k categoryThumbnailPre)
    let tr1 := tr ++ (if pImg.isEmpty then [] else [Op.pullImages pImg])
      ++ (if pThm.isEmpty then [] else [Op.setProductThumbsNull pThm])
      ++ (if cThm.isEmpty then [] else [Op.setCategoryThumbsNull cThm])
    let ps1 := if !pImg.isEmpty && !env.pullFails then
        pullImagesUpd pImg w.products else w.products
    let ps2 := if !pThm.isEmpty && !env.prodThumbFails then
        setProductThumbNull pThm ps1 else ps1
    let cs1 := if !cThm.isEmpty && !env.catThumbFails then
        setCategoryThumbNull cThm w.categories else w.categories
    let w1 : World := { products := ps2, categories := cs1, bucket := w.bucket }
    let failed := (!pImg.isEmpty && env.pullFails) ||
      (!pThm.isEmpty && env.prodThumbFails) ||
      (!cThm.isEmpty && env.catThumbFails)
    if failed then .error (w1, tr1) else .ok (w1, tr1)

/-- Outcome of one invocation of the media-reconciliation job: the returned
counts, the final state of database and bucket, the trace of issued I/O
operations, and the value of the static `isCleanupRunning` flag after the
invocation returns. -/
structure MediaRun where
  res : MediaResult
  w : World
  tr : List Op
  flag : Bool
deriving DecidableEq

/-- `cleanupMediaFiles`.  `flag` is the value of `isCleanupRunning` when the
invocation starts.  Any error thrown by the body is caught by the top-level
`catch`, which returns zero counts; the `finally` always clears the flag. -/
def cleanupMediaFiles (flag : Bool) (env : Env) (w : World) : MediaRun :=
  if flag then
    { res := ⟨0, 0⟩, w := w, tr := [], flag := true }
  else if env.dbFails then
    { res := ⟨0, 0⟩, w := w, tr := [Op.dbQuery], flag := false }
  else
    let dbKeys := getMediaKeysFromDatabase w
    if env.listFails then
      { res := ⟨0, 0⟩, w := w,
        tr := [Op.dbQuery, Op.listR2 productImagePre []], flag := false }
    else
      let r2Keys := getMediaKeysFromR2 w
      let tr0 : List Op :=
        [Op.dbQuery, Op.listR2 productImagePre (listedKeys w productImagePre),
         Op.listR2 productThumbnailPre (listedKeys w productThumbnailPre),
         Op.listR2 categoryThumbnailPre (listedKeys w categoryThumbnailPre)]
      let orphaned := r2Keys.filter (fun k => !(decide (k ∈ dbKeys)))
      match deleteOrphanedR2Files env.batchFailsAt orphaned w tr0 with
      | .error (w1, tr1) => { res := ⟨0, 0⟩, w := w1, tr := tr1, flag := false }
      | .ok (w1, tr1) =>
        let dangling := dbKeys.filter (fun k => !(decide (k ∈ r2Keys)))
        match cleanupDangling env dangling w1 tr1 with
        | .error (w2, tr2) =>
            { res := ⟨0, 0⟩, w := w2, tr := tr2, flag := false }
        | .ok (w2, tr2) =>
            { res := ⟨orphaned.length, dangling.length⟩, w := w2, tr := tr2,
              flag := false }

/-- A convenience instantiation: a failure-free run started from idle. -/
def runClean (w : World) : MediaRun := cleanupMediaFiles false okEnv w

/-- An entry of the temp staging directory, as seen through
`fs.statSync`: name, last-modified time in ms, size in bytes, kind, and
whether its `stat` / `unlink` calls throw during the run. -/
structure TempEntry where
  name : String
  mtimeMs : Int
  size : Nat
  isDir : Bool
  isFile : Bool
  statFails : Bool
  unlinkFails : Bool
deriving DecidableEq

/-- The temp staging directory. -/
structure TempWorld where
  dirExists : Bool
  entries : List TempEntry
deriving DecidableEq

/-- Result shape of `cleanupOldTempFiles`. -/
structure TempResult where
  filesDeleted : Nat
  totalSize : Nat
deriving DecidableEq

/-- `TEMP_FILE_MAX_AGE` : one hour in milliseconds. -/
def TEMP_FILE_MAX_AGE : Int := 60 * 60 * 1000

/-- Whether the per-entry loop body deletes this entry: stat succeeded, the
age strictly exceeds the threshold, the entry is not a directory, it is a
regular file, and the unlink call succeeded. -/
def tempEntryDeleted (now : Int) (e : TempEntry) : Bool :=
  !e.statFails && decide (now - e.mtimeMs > TEMP_FILE_MAX_AGE) && !e.isDir &&
    e.isFile && !e.unlinkFails

/-- Loop accumulator of `cleanupOldTempFiles`. -/
structure TempAcc where
  filesDeleted : Nat
  totalSize : Nat
  kept : List TempEntry
  tr : List Op
deriving DecidableEq

/-- The `for (const file of files)` loop of `cleanupOldTempFiles`.  Each
entry is stat'ed; a per-entry `try/catch` isolates its errors.  For an entry
older than the threshold the size is accumulated BEFORE the directory/file
distinction is made; directories are skipped (never deleted), files are
unlinked and counted. -/
def tempLoop (now : Int) (acc : TempAcc) : List TempEntry → TempAcc
  | [] => acc
  | e :: rest =>
      let acc1 : TempAcc := { acc with tr := acc.tr ++ [Op.statEntry e.name] }
      if e.statFails then
        tempLoop now { acc1 with kept := acc1.kept ++ [e] } rest
      else if now - e.mtimeMs > TEMP_FILE_MAX_AGE then
        let acc2 : TempAcc := { acc1 with totalSize := acc1.totalSize + e.size }
        if e.isDir then
          tempLoop now { acc2 with kept := acc2.kept ++ [e] } rest
        else if e.isFile then
          let acc3 : TempAcc :=
            { acc2 with tr := acc2.tr ++ [Op.unlinkEntry e.name] }
          if e.unlinkFails then
            tempLoop now { acc3 with kept := acc3.kept ++ [e] } rest
          else
            tempLoop now
              { acc3 with filesDeleted := acc3.filesDeleted + 1 } rest
        else tempLoop now { acc2 with kept := acc2.kept ++ [e] } rest
      else tempLoop now { acc1 with kept := acc1.kept ++ [e] } rest

/-- Outcome of one invocation of the temp-file janitor. -/
structure TempRun where
  res : TempResult
  w : TempWorld
  tr : List Op
  flag : Bool
deriving DecidableEq

/-- `cleanupOldTempFiles`.  `flag` is the value of `isTempCleanupRunning`
when the invocation starts; the `finally` always clears it.  A missing
staging directory is created and the run returns zero counts. -/
def cleanupOldTempFiles (flag : Bool) (now : Int) (w : TempWorld) : TempRun :=
  if flag then
    { res := ⟨0, 0⟩, w := w, tr := [], flag := true }
  else if !w.dirExists then
    { res := ⟨0, 0⟩, w := { dirExists := true, entries := [] },
      tr := [Op.mkdirTemp], flag := false }
  else if w.entries.isEmpty then
    { res := ⟨0, 0⟩, w := w, tr := [], flag := false }
  else
    let a := tempLoop now ⟨0, 0, [], []⟩ w.entries
    { res := ⟨a.filesDeleted, a.totalSize⟩,
      w := { dirExists := true, entries := a.kept }, tr := a.tr,
      flag := false }

/-! ### Basic lemmas about the string and set helpers -/

/-- Characterization of the prefix check: `isPre p s` holds exactly when `p`
is a list prefix of `s`. -/
theorem isPre_iff : ∀ p s : List Char, isPre p s = true ↔ p <+: s
  | [], s => by simp [isPre]
  | a :: as, [] => by simp [isPre]
  | a :: as, b :: bs => by
      simp only [isPre, Bool.and_eq_true, beq_iff_eq, List.cons_prefix_cons]
      exact and_congr Iff.rfl (isPre_iff as bs)

/-- The prefix check as a statement about `String` data. -/
theorem startsW_iff (s p : String) : startsW s p = true ↔ p.data <+: s.data :=
  isPre_iff p.data s.data

/-- A key under the product-thumbnail prefix is also under the product-image
prefix. -/
theorem startsW_thumb_image {k : String}
    (h : startsW k productThumbnailPre = true) :
    startsW k productImagePre = true := by
  rw [startsW_iff] at h ⊢
  exact List.IsPrefix.trans (by decide) h

/-- Prefixes are preserved by character-wise lower-casing. -/
theorem startsW_lowerStr {s p : String} (h : startsW s p = true) :
    startsW (lowerStr s) (lowerStr p) = true := by
  rw [startsW_iff] at h ⊢
  obtain ⟨t, ht⟩ := h
  exact ⟨t.map Char.toLower, by simp [lowerStr, ← ht]⟩

/-- A case-sensitive prefix match implies the case-insensitive one. -/
theorem startsWCI_of_startsW {s p : String} (h : startsW s p = true) :
    startsWCI s p = true :=
  startsW_lowerStr h

/-- Membership in a JS-set insertion. -/
theorem mem_sadd {s : List String} {k a : String} :
    a ∈ sadd s k ↔ a ∈ s ∨ a = k := by
  unfold sadd
  split
  · constructor
    · exact Or.inl
    · rintro (h | rfl) <;> [exact h; assumption]
  · simp

/-- JS-set insertion preserves deduplication. -/
theorem nodup_sadd {s : List String} {k : String} (h : s.Nodup) :
    (sadd s k).Nodup := by
  unfold sadd
  split
  · exact h
  · simpa [List.nodup_append] using ⟨h, by assumption⟩

/-- Membership after folding a guarded collection loop into a set. -/
theorem mem_addAllIf {q : String → Bool} :
    ∀ {xs acc : List String} {a : String},
      a ∈ addAllIf q xs acc ↔ a ∈ acc ∨ (a ∈ xs ∧ q a = true)
  | [], acc, a => by simp [addAllIf]
  | x :: xs, acc, a => by
      have step : addAllIf q (x :: xs) acc =
          addAllIf q xs (if q x then sadd acc x else acc) := rfl
      rw [step, mem_addAllIf]
      by_cases hqx : q x = true <;>
        simp only [hqx, if_true, if_false, Bool.false_eq_true, mem_sadd,
          List.mem_cons] <;> constructor
      · rintro ((h | rfl) | h)
        · exact Or.inl h
        · exact Or.inr ⟨Or.inl rfl, hqx⟩
        · exact Or.inr ⟨Or.inr h.1, h.2⟩
      · rintro (h | ⟨(rfl | h), hq⟩)
        · exact Or.inl (Or.inl h)
        · exact Or.inl (Or.inr rfl)
        · exact Or.inr ⟨h, hq⟩
      · rintro (h | h)
        · exact Or.inl h
        · exact Or.inr ⟨Or.inr h.1, h.2⟩
      · rintro (h | ⟨(rfl | h), hq⟩)
        · exact Or.inl h
        · exact absurd hq hqx
        · exact Or.inr ⟨h, hq⟩

/-- The guarded collection loop preserves deduplication. -/
theorem nodup_addAllIf {q : String → Bool} :
    ∀ {xs acc : List String}, acc.Nodup → (addAllIf q xs acc).Nodup
  | [], acc, h => h
  | x :: xs, acc, h => by
      have step : addAllIf q (x :: xs) acc =
          addAllIf q xs (if q x then sadd acc x else acc) := rfl
      rw [step]
      exact nodup_addAllIf (by split <;> [exact nodup_sadd h; exact h])

/-! ### The temp-file janitor -/

/-- Whether the loop body adds this entry's size to `totalSize`: stat
succeeded and the age strictly exceeds the threshold.  Note this is decided
BEFORE the directory/file distinction. -/
def tempEntryCounted (now : Int) (e : TempEntry) : Bool :=
  !e.statFails && decide (now - e.mtimeMs > TEMP_FILE_MAX_AGE)

/-- Characterization of the cleanup loop: the deletion counter counts the
entries `tempEntryDeleted` accepts, the size accumulator sums the sizes of
the entries `tempEntryCounted` accepts, and the surviving directory contents
are exactly the entries not deleted, in order. -/
theorem tempLoop_spec (now : Int) :
    ∀ (es : List TempEntry) (acc : TempAcc),
      (tempLoop now acc es).filesDeleted =
          acc.filesDeleted + es.countP (tempEntryDeleted now) ∧
      (tempLoop now acc es).totalSize =
          acc.totalSize +
            ((es.filter (tempEntryCounted now)).map TempEntry.size).sum ∧
      (tempLoop now acc es).kept =
          acc.kept ++ es.filter (fun e => !(tempEntryDeleted now e))
  | [], acc => by simp [tempLoop]
  | e :: es, acc => by
      have IH := tempLoop_spec now es
      simp only [tempLoop]
      by_cases hs : e.statFails = true
      · simp only [hs, if_true]
        rw [(IH _).1, (IH _).2.1, (IH _).2.2]
        simp [tempEntryDeleted, tempEntryCounted, hs]
      · simp only [hs, if_false, Bool.false_eq_true, ite_false]
        by_cases hage : now - e.mtimeMs > TEMP_FILE_MAX_AGE
        · simp only [hage, if_true, ite_true]
          by_cases hdir : e.isDir = true
          · simp only [hdir, if_true]
            rw [(IH _).1, (IH _).2.1, (IH _).2.2]
            simp [tempEntryDeleted, tempEntryCounted, hs, hage, hdir] <;> omega
          · simp only [hdir, if_false, Bool.false_eq_true, ite_false]
            by_cases hfile : e.isFile = true
            · simp only [hfile, if_true]
              by_cases hu : e.unlinkFails = true
              · simp only [hu, if_true]
                rw [(IH _).1, (IH _).2.1, (IH _).2.2]
                simp [tempEntryDeleted, tempEntryCounted, hs, hage, hdir,
                  hu] <;> omega
              · simp only [hu, if_false, Bool.false_eq_true, ite_false]
                rw [(IH _).1, (IH _).2.1, (IH _).2.2]
                simp [tempEntryDeleted, tempEntryCounted, hs, hage, hdir,
                  hfile, hu] <;> omega
            · simp only [hfile, if_false, Bool.false_eq_true, ite_false]
              rw [(IH _).1, (IH _).2.1, (IH _).2.2]
              simp [tempEntryDeleted, tempEntryCounted, hs, hage, hdir,
                hfile] <;> omega
        · simp only [hage, if_false, ite_false]
          rw [(IH _).1, (IH _).2.1, (IH _).2.2]
          simp [tempEntryDeleted, tempEntryCounted, hs, hage]

/-- Entries surviving a temp-cleanup run (with the directory present) are
exactly the entries the loop does not delete. -/
theorem cleanupOldTempFiles_entries (now : Int) (w : TempWorld)
    (hdir : w.dirExists = true) :
    (cleanupOldTempFiles false now w).w.entries =
      w.entries.filter (fun x => !(tempEntryDeleted now x)) := by
  rcases hw : w.entries with _ | ⟨a, l⟩
  · simp [cleanupOldTempFiles, hdir, hw]
  · simp [cleanupOldTempFiles, hdir, hw,
      (tempLoop_spec now (a :: l) ⟨0, 0, [], []⟩).2.2]

/-- C9: during a temp-cleanup run, a regular file older than the one-hour
threshold (whose stat and unlink calls succeed) is deleted; an entry whose
age is at most the threshold is retained; and a directory entry is never
deleted regardless of age. -/
theorem c9_temp_retention (now : Int) (w : TempWorld)
    (hdir : w.dirExists = true) (e : TempEntry) (he : e ∈ w.entries) :
    (e.isFile = true → e.isDir = false → e.statFails = false →
        e.unlinkFails = false → now - e.mtimeMs > TEMP_FILE_MAX_AGE →
        e ∉ (cleanupOldTempFiles false now w).w.entries) ∧
    (now - e.mtimeMs ≤ TEMP_FILE_MAX_AGE →
        e ∈ (cleanupOldTempFiles false now w).w.entries) ∧
    (e.isDir = true → e ∈ (cleanupOldTempFiles false now w).w.entries) := by
  rw [cleanupOldTempFiles_entries now w hdir]
  refine ⟨?_, ?_, ?_⟩
  · intro hf hd hsf huf hage
    simp [List.mem_filter, tempEntryDeleted, hf, hd, hsf, huf, hage]
  · intro hage
    have hnot : ¬(now - e.mtimeMs > TEMP_FILE_MAX_AGE) := by omega
    simp [List.mem_filter, tempEntryDeleted, hnot, he]
  · intro hd
    simp [List.mem_filter, tempEntryDeleted, hd, he]

/-- Concrete staging directory for the C9 witness: a stale file, a fresh
file, and a stale directory. -/
def twC9 : TempWorld :=
  { dirExists := true,
    entries := [⟨"old", 0, 10, false, true, false, false⟩,
      ⟨"new", 3999999, 5, false, true, false, false⟩,
      ⟨"dir", 0, 7, true, false, false, false⟩] }

/-- Witness for C9 at a concrete directory state: the stale file is deleted,
the fresh file is retained, the stale directory is retained. -/
theorem c9_temp_retention_witness :
    (⟨"old", 0, 10, false, true, false, false⟩ : TempEntry) ∉
        (cleanupOldTempFiles false 4000000 twC9).w.entries ∧
    (⟨"new", 3999999, 5, false, true, false, false⟩ : TempEntry) ∈
        (cleanupOldTempFiles false 4000000 twC9).w.entries ∧
    (⟨"dir", 0, 7, true, false, false, false⟩ : TempEntry) ∈
        (cleanupOldTempFiles false 4000000 twC9).w.entries :=
  ⟨(c9_temp_retention 4000000 twC9 rfl _ (by simp [twC9])).1 rfl rfl rfl rfl
      (by decide),
    (c9_temp_retention 4000000 twC9 rfl _ (by simp [twC9])).2.1 (by decide),
    (c9_temp_retention 4000000 twC9 rfl _ (by simp [twC9])).2.2 rfl⟩

/-- C10 (code bug): on a staging directory holding a single stale directory
entry of 4096 bytes, the run deletes nothing, yet returns
`totalSize = 4096` — the bytes of entries that were never deleted are counted
(exposed to the admin endpoint as `sizeFreed`), because the size is
accumulated before the directory check.  The bytes actually freed are 0. -/
theorem c10_totalSize_counts_undeleted :
    (cleanupOldTempFiles false 7200000
        ⟨true, [⟨"d", 0, 4096, true, false, false, false⟩]⟩).res.filesDeleted
        = 0 ∧
    (cleanupOldTempFiles false 7200000
        ⟨true, [⟨"d", 0, 4096, true, false, false, false⟩]⟩).res.totalSize
        = 4096 ∧
    (cleanupOldTempFiles false 7200000
        ⟨true, [⟨"d", 0, 4096, true, false, false, false⟩]⟩).w.entries
        = [⟨"d", 0, 4096, true, false, false, false⟩] ∧
    (([⟨"d", 0, 4096, true, false, false, false⟩].filter
        (tempEntryDeleted 7200000)).map TempEntry.size).sum = 0 := by
  decide

/-- The media job's exclusivity flag is cleared on every exit path (the
`finally` clause), whatever the failure behaviour of the environment. -/
theorem cleanupMediaFiles_flag_false (env : Env) (w : World) :
    (cleanupMediaFiles false env w).flag = false := by
  unfold cleanupMediaFiles
  repeat first | rfl | contradiction | split | dsimp only

/-- The temp job's exclusivity flag is cleared on every exit path. -/
theorem cleanupOldTempFiles_flag_false (now : Int) (tw : TempWorld) :
    (cleanupOldTempFiles false now tw).flag = false := by
  unfold cleanupOldTempFiles
  repeat first | rfl | contradiction | split | dsimp only

/-- C3: for each job, an invocation that finds the running flag set returns
zero counts with an empty I/O trace and an unchanged world; and an
invocation that actually runs (flag clear) ends with the flag cleared again
on every exit path, for every failure environment — so each job goes
Idle → Running → Idle and is never left Running. -/
theorem c3_exclusivity_flag (env : Env) (w : World) (now : Int)
    (tw : TempWorld) :
    ((cleanupMediaFiles true env w).res = ⟨0, 0⟩ ∧
      (cleanupMediaFiles true env w).tr = [] ∧
      (cleanupMediaFiles true env w).w = w ∧
      (cleanupMediaFiles false env w).flag = false) ∧
    ((cleanupOldTempFiles true now tw).res = ⟨0, 0⟩ ∧
      (cleanupOldTempFiles true now tw).tr = [] ∧
      (cleanupOldTempFiles true now tw).w = tw ∧
      (cleanupOldTempFiles false now tw).flag = false) :=
  ⟨⟨rfl, rfl, rfl, cleanupMediaFiles_flag_false env w⟩,
    ⟨rfl, rfl, rfl, cleanupOldTempFiles_flag_false now tw⟩⟩

/-- C1: if the database snapshot query or the storage listing throws, the
reconciliation run returns zero counts, leaves both stores untouched, and
issues no mutating operation (fail-closed). -/
theorem c1_fail_closed (env : Env) (w : World)
    (h : env.dbFails = true ∨ env.listFails = true) :
    (cleanupMediaFiles false env w).res = ⟨0, 0⟩ ∧
    (cleanupMediaFiles false env w).w = w ∧
    ∀ op ∈ (cleanupMediaFiles false env w).tr, op.isMutating = false := by
  by_cases hdb : env.dbFails = true
  · simp [cleanupMediaFiles, hdb, Op.isMutating]
  · have hl : env.listFails = true := h.resolve_left hdb
    simp [cleanupMediaFiles, hdb, hl, Op.isMutating]

/-- Environment where the database snapshot query throws. -/
def envC1 : Env := { okEnv with dbFails := true }

/-- Witness for C1 at a concrete world and failing environment. -/
theorem c1_fail_closed_witness :
    (cleanupMediaFiles false envC1 ⟨[], [], ["img/product/z"]⟩).res =
        ⟨0, 0⟩ ∧
    (cleanupMediaFiles false envC1 ⟨[], [], ["img/product/z"]⟩).w =
        ⟨[], [], ["img/product/z"]⟩ ∧
    ∀ op ∈ (cleanupMediaFiles false envC1 ⟨[], [], ["img/product/z"]⟩).tr,
      op.isMutating = false :=
  c1_fail_closed envC1 _ (Or.inl rfl)

/-! ### The batch deleter -/

/-- Chunking the empty list gives no batches, for any fuel. -/
theorem chunksAux_nil : ∀ f : Nat, chunksAux f ([] : List String) = [] := by
  intro f; cases f <;> rfl

/-- The fuel of `chunksAux` is irrelevant once it covers the list length. -/
theorem chunksAux_congr : ∀ (f g : Nat) (xs : List String),
    xs.length ≤ f → xs.length ≤ g → chunksAux f xs = chunksAux g xs
  | _, _, [], _, _ => by rw [chunksAux_nil, chunksAux_nil]
  | 0, _, x :: xs, hf, _ => by simp only [List.length_cons] at hf; omega
  | _ + 1, 0, x :: xs, _, hg => by simp only [List.length_cons] at hg; omega
  | f + 1, g + 1, x :: xs, hf, hg => by
      simp only [chunksAux]
      rw [chunksAux_congr f g ((x :: xs).drop 1000)
        (by simp only [List.length_drop, List.length_cons] at *; omega)
        (by simp only [List.length_drop, List.length_cons] at *; omega)]

/-- Unfolding step of the batching loop on a non-empty key list. -/
theorem chunks_cons (x : String) (xs : List String) :
    chunks (x :: xs) = (x :: xs).take 1000 :: chunks ((x :: xs).drop 1000) := by
  show chunksAux (x :: xs).length (x :: xs) = _
  simp only [List.length_cons]
  show ((x :: xs).take 1000) :: chunksAux xs.length ((x :: xs).drop 1000) = _
  rw [chunksAux_congr xs.length ((x :: xs).drop 1000).length ((x :: xs).drop 1000)
    (by simp only [List.length_drop, List.length_cons]; omega) le_rfl]
  rfl

/-- Unfolding step of the batching loop, stated for any non-empty list. -/
theorem chunks_cons' (xs : List String) (h : xs ≠ []) :
    chunks xs = xs.take 1000 :: chunks (xs.drop 1000) := by
  cases xs with
  | nil => exact absurd rfl h
  | cons a t => exact chunks_cons a t

/-- The batches concatenate back to the input, in order: the loop partitions
the keys into consecutive slices. -/
theorem chunks_join : ∀ xs : List String, (chunks xs).flatten = xs
  | [] => rfl
  | x :: xs => by
      rw [chunks_cons, List.flatten_cons, chunks_join ((x :: xs).drop 1000),
        List.take_append_drop]
termination_by xs => xs.length
decreasing_by simp only [List.length_drop, List.length_cons]; omega

/-- No batch exceeds 1000 keys. -/
theorem chunks_sizes : ∀ (xs : List String), ∀ b ∈ chunks xs, b.length ≤ 1000
  | [] => by simp [chunks, chunksAux_nil]
  | x :: xs => by
      rw [chunks_cons]
      intro b hb
      rcases List.mem_cons.1 hb with rfl | hb
      · simp only [List.length_take]; omega
      · exact chunks_sizes ((x :: xs).drop 1000) b hb
termination_by xs => xs.length
decreasing_by simp only [List.length_drop, List.length_cons]; omega

/-- The number of batches is `⌈n / 1000⌉` for `n` input keys. -/
theorem chunks_length : ∀ xs : List String,
    (chunks xs).length = (xs.length + 999) / 1000
  | [] => by norm_num [chunks, chunksAux_nil]
  | x :: xs => by
      rw [chunks_cons]
      simp only [List.length_cons, chunks_length ((x :: xs).drop 1000),
        List.length_drop, List.length_cons]
      omega
termination_by xs => xs.length
decreasing_by simp only [List.length_drop, List.length_cons]; omega

/-- A failure-free batch loop succeeds, appends one delete call per batch to
the trace in order, touches neither database collection, and removes from
the bucket exactly the keys of the batches. -/
theorem runBatches_none : ∀ (bs : List (List String)) (i : Nat) (w : World)
    (tr : List Op),
    ∃ w' : World,
      runBatches none bs i w tr = .ok (w', tr ++ bs.map Op.deleteBatch) ∧
      w'.products = w.products ∧ w'.categories = w.categories ∧
      ∀ k, k ∈ w'.bucket ↔ k ∈ w.bucket ∧ ∀ b ∈ bs, k ∉ b
  | [], i, w, tr => ⟨w, by simp [runBatches], rfl, rfl, by simp⟩
  | b :: bs, i, w, tr => by
      obtain ⟨w', h1, h2, h3, h4⟩ := runBatches_none bs (i + 1)
        { w with bucket := w.bucket.filter (fun k => !(decide (k ∈ b))) }
        (tr ++ [Op.deleteBatch b])
      refine ⟨w', ?_, h2, h3, ?_⟩
      · simpa [runBatches] using h1
      · intro k
        rw [h4 k]
        simp only [List.mem_filter, Bool.not_eq_eq_eq_not, Bool.not_true,
          decide_eq_false_iff_not, List.mem_cons]
        constructor
        · rintro ⟨⟨hk, hkb⟩, hbs⟩
          exact ⟨hk, by rintro b' (rfl | hb') <;> [exact hkb; exact hbs b' hb']⟩
        · rintro ⟨hk, hall⟩
          exact ⟨⟨hk, hall b (Or.inl rfl)⟩, fun b' hb' => hall b' (Or.inr hb')⟩

/-- C4: for any input key set, the deleter issues one delete call per batch,
sequentially and in order; the batches are consecutive slices whose
concatenation is the input, none exceeds 1000 keys, and there are exactly
`⌈n / 1000⌉` of them; for 2500 keys the batch sizes are 1000, 1000, 500. -/
theorem c4_batch_partition (keys : List String) (w : World) (tr : List Op) :
    (∃ w' : World, deleteOrphanedR2Files none keys w tr =
        .ok (w', tr ++ (chunks keys).map Op.deleteBatch)) ∧
    (chunks keys).length = (keys.length + 999) / 1000 ∧
    (∀ b ∈ chunks keys, b.length ≤ 1000) ∧
    (chunks keys).flatten = keys ∧
    (keys.length = 2500 → (chunks keys).map List.length = [1000, 1000, 500]) := by
  refine ⟨?_, chunks_length keys, chunks_sizes keys, chunks_join keys, ?_⟩
  · obtain ⟨w', h1, -⟩ := runBatches_none (chunks keys) 0 w tr
    exact ⟨w', h1⟩
  · intro h
    have h1 : chunks keys = keys.take 1000 :: chunks (keys.drop 1000) :=
      chunks_cons' keys (by intro hk; rw [hk] at h; simp at h)
    have h2 : chunks (keys.drop 1000) =
        (keys.drop 1000).take 1000 :: chunks ((keys.drop 1000).drop 1000) :=
      chunks_cons' _ (by
        intro hk
        have := congrArg List.length hk
        simp only [List.length_drop, h] at this
        simp at this)
    have h3 : chunks ((keys.drop 1000).drop 1000) =
        ((keys.drop 1000).drop 1000).take 1000 ::
          chunks (((keys.drop 1000).drop 1000).drop 1000) :=
      chunks_cons' _ (by
        intro hk
        have := congrArg List.length hk
        simp only [List.length_drop, h] at this
        simp at this)
    have h4 : (((keys.drop 1000).drop 1000).drop 1000) = [] := by
      have : ((((keys.drop 1000).drop 1000).drop 1000)).length = 0 := by
        simp only [List.length_drop, h]
      exact List.eq_nil_of_length_eq_zero this
    rw [h1, h2, h3, h4, chunks]
    simp only [List.length_nil, chunksAux_nil, List.map_cons, List.map_nil,
      List.length_take, List.length_drop, h]
    norm_num

/-- Witness for C4: a concrete 2500-key list is split into batches of sizes
1000, 1000, 500, i.e. exactly three delete calls. -/
theorem c4_batch_partition_witness :
    (chunks (List.replicate 2500 "k")).map List.length = [1000, 1000, 500] ∧
    (chunks (List.replicate 2500 "k")).length = (2500 + 999) / 1000 :=
  ⟨(c4_batch_partition (List.replicate 2500 "k") ⟨[], [], []⟩ []).2.2.2.2
      (List.length_replicate 2500 "k"),
    by
      rw [(c4_batch_partition (List.replicate 2500 "k") ⟨[], [], []⟩
        []).2.1, List.length_replicate]⟩

/-- The orphaned-key set a run computes: stored keys not referenced. -/
def orphanedOf (w : World) : List String :=
  (getMediaKeysFromR2 w).filter
    (fun k => !(decide (k ∈ getMediaKeysFromDatabase w)))

/-- The dangling-key set a run computes: referenced keys not stored. -/
def danglingOf (w : World) : List String :=
  (getMediaKeysFromDatabase w).filter
    (fun k => !(decide (k ∈ getMediaKeysFromR2 w)))

/-- A batch loop whose `j`-th call rejects issues the calls up to and
including batch `j`, then propagates the error: batches before `j` are
deleted, batch `j` and all later batches are not, and the database
collections are untouched. -/
theorem runBatches_fail : ∀ (bs : List (List String)) (i j : Nat) (w : World)
    (tr : List Op), i ≤ j → j < i + bs.length →
    ∃ w' : World,
      runBatches (some j) bs i w tr =
        .error (w', tr ++ (bs.take (j - i + 1)).map Op.deleteBatch) ∧
      w'.products = w.products ∧ w'.categories = w.categories ∧
      ∀ k, k ∈ w'.bucket ↔ k ∈ w.bucket ∧ ∀ b ∈ bs.take (j - i), k ∉ b
  | [], i, j, w, tr => by
      intro h1 h2
      simp only [List.length_nil] at h2
      omega
  | b :: bs, i, j, w, tr => by
      intro h1 h2
      by_cases hij : j = i
      · subst hij
        refine ⟨w, ?_, rfl, rfl, ?_⟩
        · simp [runBatches, Nat.sub_self]
        · intro k
          simp [Nat.sub_self]
      · have hlt : i + 1 ≤ j := by omega
        obtain ⟨w', h3, h4, h5, h6⟩ := runBatches_fail bs (i + 1) j
          { w with bucket := w.bucket.filter (fun k => !(decide (k ∈ b))) }
          (tr ++ [Op.deleteBatch b]) hlt
          (by simp only [List.length_cons] at h2; omega)
        refine ⟨w', ?_, h4, h5, ?_⟩
        · have hne : ¬((some j : Option Nat) = some i) := by
            simp only [Option.some.injEq]; omega
          have htake : (b :: bs).take (j - i + 1) =
              b :: bs.take (j - (i + 1) + 1) := by
            have : j - i + 1 = (j - (i + 1) + 1) + 1 := by omega
            rw [this, List.take_succ_cons]
          rw [htake]
          simpa [runBatches, hne] using h3
        · intro k
          rw [h6 k]
          have htake : (b :: bs).take (j - i) = b :: bs.take (j - (i + 1)) := by
            have : j - i = (j - (i + 1)) + 1 := by omega
            rw [this, List.take_succ_cons]
          rw [htake]
          simp only [List.mem_filter, Bool.not_eq_eq_eq_not, Bool.not_true,
            decide_eq_false_iff_not, List.mem_cons]
          constructor
          · rintro ⟨⟨hk, hkb⟩, hbs⟩
            exact ⟨hk, by rintro b' (rfl | hb') <;>
              [exact hkb; exact hbs b' hb']⟩
          · rintro ⟨hk, hall⟩
            exact ⟨⟨hk, hall b (Or.inl rfl)⟩,
              fun b' hb' => hall b' (Or.inr hb')⟩

/-- Environment for C5: the first `DeleteObjects` call rejects. -/
def envC5 : Env := { okEnv with batchFailsAt := some 0 }

/-- Counterexample to C5 as stated: with one orphaned key
`img/product/x` and a failing delete batch, the claim says the batch is
skipped, processing continues, and the failed batch's key is still counted
(`orphanedR2Files = 1`); the code instead logs and RETHROWS the error, so
the run aborts and returns zero counts, while the key stays in the bucket. -/
theorem c5_counterexample :
    (cleanupMediaFiles false envC5 ⟨[], [], ["img/product/x"]⟩).res =
        ⟨0, 0⟩ ∧
    (cleanupMediaFiles false envC5
        ⟨[], [], ["img/product/x"]⟩).res.orphanedR2Files ≠ 1 ∧
    (cleanupMediaFiles false envC5 ⟨[], [], ["img/product/x"]⟩).w.bucket =
        ["img/product/x"] := by
  decide

/-- C5 (amended): if the `j`-th delete batch fails, its error is logged and
rethrown — the batches before `j` were issued and deleted, batch `j` was
issued but deleted nothing, later batches and the dangling-reference cleanup
never run, the database is untouched, and the run returns zero counts. -/
theorem c5_batch_failure_aborts (env : Env) (w : World) (j : Nat)
    (hdb : env.dbFails = false) (hlist : env.listFails = false)
    (hfail : env.batchFailsAt = some j)
    (hj : j < (chunks (orphanedOf w)).length) :
    (cleanupMediaFiles false env w).res = ⟨0, 0⟩ ∧
    (cleanupMediaFiles false env w).w.products = w.products ∧
    (cleanupMediaFiles false env w).w.categories = w.categories ∧
    (cleanupMediaFiles false env w).tr =
      [Op.dbQuery, Op.listR2 productImagePre (listedKeys w productImagePre),
        Op.listR2 productThumbnailPre (listedKeys w productThumbnailPre),
        Op.listR2 categoryThumbnailPre (listedKeys w categoryThumbnailPre)]
        ++ ((chunks (orphanedOf w)).take (j + 1)).map Op.deleteBatch ∧
    ∀ k, k ∈ (cleanupMediaFiles false env w).w.bucket ↔
      k ∈ w.bucket ∧ ∀ b ∈ (chunks (orphanedOf w)).take j, k ∉ b := by
  obtain ⟨w', h1, h2, h3, h4⟩ := runBatches_fail (chunks (orphanedOf w)) 0 j w
    [Op.dbQuery, Op.listR2 productImagePre (listedKeys w productImagePre),
      Op.listR2 productThumbnailPre (listedKeys w productThumbnailPre),
      Op.listR2 categoryThumbnailPre (listedKeys w categoryThumbnailPre)]
    (Nat.zero_le j) (by omega)
  simp only [Nat.sub_zero] at h1 h4
  simp only [orphanedOf] at h1
  simp only [cleanupMediaFiles, deleteOrphanedR2Files, hdb, hlist, hfail,
    Bool.false_eq_true, if_false, ite_false, h1]
  exact ⟨trivial, h2, h3, by rw [orphanedOf], h4⟩

/-- Witness for C5 (amended) at a concrete world: the failing first batch
leaves the orphaned key in place and the run reports zero counts. -/
theorem c5_batch_failure_aborts_witness :
    (cleanupMediaFiles false envC5 ⟨[], [], ["img/product/y"]⟩).res =
        ⟨0, 0⟩ ∧
    (cleanupMediaFiles false envC5
        ⟨[], [], ["img/product/y"]⟩).w.products = [] :=
  ⟨(c5_batch_failure_aborts envC5 ⟨[], [], ["img/product/y"]⟩ 0 rfl rfl rfl
      (by decide)).1,
    (c5_batch_failure_aborts envC5 ⟨[], [], ["img/product/y"]⟩ 0 rfl rfl rfl
      (by decide)).2.1⟩

/-- The world component of a fallible step's outcome (error or success). -/
def exW : Except (World × List Op) (World × List Op) → World
  | .ok (w, _) => w
  | .error (w, _) => w

/-- The trace component of a fallible step's outcome. -/
def exTr : Except (World × List Op) (World × List Op) → List Op
  | .ok (_, t) => t
  | .error (_, t) => t

/-- Whether a fallible step succeeded. -/
def isOkB : Except (World × List Op) (World × List Op) → Bool
  | .ok _ => true
  | .error _ => false

/-- The gallery `$pull` and the thumbnail set-to-null act on disjoint fields,
so their order is irrelevant — the parallel application is well defined. -/
theorem pull_thumb_comm (ks1 ks2 : List String) (ps : List Product) :
    setProductThumbNull ks2 (pullImagesUpd ks1 ps) =
      pullImagesUpd ks1 (setProductThumbNull ks2 ps) := by
  simp only [setProductThumbNull, pullImagesUpd, List.map_map]
  refine List.map_congr_left fun p _ => ?_
  rcases p with ⟨t, imgs⟩
  cases t with
  | none =>
      simp only [Function.comp]
      by_cases hany : (imgs.any fun k => decide (k ∈ ks1)) = true <;>
        simp [hany]
  | some t =>
      simp only [Function.comp]
      by_cases ht : t ∈ ks2 <;>
        by_cases hany : imgs.any (fun k => decide (k ∈ ks1)) = true <;>
        simp [ht, hany]

/-- Environment for C8: the gallery `$pull` group's update rejects. -/
def envC8 : Env := { okEnv with pullFails := true }

/-- World for C8: one product holding a dangling thumbnail and a dangling
gallery key; storage is empty. -/
def wC8 : World :=
  ⟨[⟨some "img/product/thumbnail/t8", ["img/product/g8"]⟩], [], []⟩

/-- Counterexample to C8 as stated: a rejection of one field group is NOT
caught per group — `Promise.all`'s rejection propagates out of
`cleanupDanglingDatabaseReferences` to the run-level catch, which returns
zero counts instead of the dangling count 2.  (The other group does still
execute: the thumbnail is nulled even though the gallery pull failed.) -/
theorem c8_counterexample :
    isOkB (cleanupDangling envC8
        ["img/product/thumbnail/t8", "img/product/g8"] wC8 []) = false ∧
    (cleanupMediaFiles false envC8 wC8).res = ⟨0, 0⟩ ∧
    (cleanupMediaFiles false envC8 wC8).res.danglingSavedReferences ≠ 2 ∧
    (cleanupMediaFiles false envC8 wC8).w.products =
      [⟨none, ["img/product/g8"]⟩] := by
  decide

/-- C8 (amended): the grouped reference-cleanup updates run in parallel and
independently — every non-empty group's update is issued whatever the other
groups do, each group's effect on the database depends only on its own
failure flag (a failure in one group neither prevents nor rolls back the
others, and the two product-field updates commute) — but a group error is
not caught per field-group: the step as a whole fails exactly when some
started group fails, and that error propagates to the run level. -/
theorem c8_group_independence (env : Env) (dk : List String) (w : World)
    (tr : List Op) :
    exTr (cleanupDangling env dk w tr) = tr ++
      ((if (dk.filter (fun k => startsW k productImagePre)).isEmpty then []
          else [Op.pullImages (dk.filter
            (fun k => startsW k productImagePre))]) ++
        (if (dk.filter (fun k => startsW k productThumbnailPre)).isEmpty
          then [] else [Op.setProductThumbsNull (dk.filter
            (fun k => startsW k productThumbnailPre))]) ++
        (if (dk.filter (fun k => startsW k categoryThumbnailPre)).isEmpty
          then [] else [Op.setCategoryThumbsNull (dk.filter
            (fun k => startsW k categoryThumbnailPre))])) ∧
    (exW (cleanupDangling env dk w tr)).products =
      (if (!(dk.filter (fun k => startsW k productThumbnailPre)).isEmpty &&
            !env.prodThumbFails) = true then
          setProductThumbNull (dk.filter
            (fun k => startsW k productThumbnailPre))
        else id)
      ((if (!(dk.filter (fun k => startsW k productImagePre)).isEmpty &&
            !env.pullFails) = true then
          pullImagesUpd (dk.filter (fun k => startsW k productImagePre))
        else id) w.products) ∧
    (exW (cleanupDangling env dk w tr)).categories =
      (if (!(dk.filter (fun k => startsW k categoryThumbnailPre)).isEmpty &&
            !env.catThumbFails) = true then
          setCategoryThumbNull (dk.filter
            (fun k => startsW k categoryThumbnailPre))
        else id) w.categories ∧
    (exW (cleanupDangling env dk w tr)).bucket = w.bucket ∧
    isOkB (cleanupDangling env dk w tr) =
      !((!(dk.filter (fun k => startsW k productImagePre)).isEmpty &&
          env.pullFails) ||
        (!(dk.filter (fun k => startsW k productThumbnailPre)).isEmpty &&
          env.prodThumbFails) ||
        (!(dk.filter (fun k => startsW k categoryThumbnailPre)).isEmpty &&
          env.catThumbFails)) ∧
    ∀ ks1 ks2 : List String, ∀ ps : List Product,
      setProductThumbNull ks2 (pullImagesUpd ks1 ps) =
        pullImagesUpd ks1 (setProductThumbNull ks2 ps) := by
  by_cases hdk : dk.isEmpty = true
  · have : dk = [] := by
      cases dk with
      | nil => rfl
      | cons a l => simp at hdk
    subst this
    exact ⟨by simp [cleanupDangling, exTr], by simp [cleanupDangling, exW],
      by simp [cleanupDangling, exW], by simp [cleanupDangling, exW],
      by simp [cleanupDangling, isOkB], fun ks1 ks2 ps =>
        pull_thumb_comm ks1 ks2 ps⟩
  · refine ⟨?_, ?_, ?_, ?_, ?_, fun ks1 ks2 ps => pull_thumb_comm ks1 ks2 ps⟩
    · simp only [cleanupDangling, hdk, Bool.false_eq_true, if_false, ite_false]
      split <;> simp [exTr, List.append_assoc]
    · simp only [cleanupDangling, hdk, Bool.false_eq_true, if_false, ite_false]
      split
      · simp only [exW]
        split <;> split <;> rfl
      · simp only [exW]
        split <;> split <;> rfl
    · simp only [cleanupDangling, hdk, Bool.false_eq_true, if_false, ite_false]
      split
      · simp only [exW]
        split <;> rfl
      · simp only [exW]
        split <;> rfl
    · simp only [cleanupDangling, hdk, Bool.false_eq_true, if_false, ite_false]
      split <;> rfl
    · simp only [cleanupDangling, hdk, Bool.false_eq_true, if_false, ite_false]
      split
      · next hfail => simp only [isOkB, hfail, Bool.not_true]
      · next hfail =>
          simp only [isOkB]
          simp only [Bool.not_eq_true] at hfail
          simp [hfail]

/-! ### Characterizing the two snapshots -/

/-- What a product document contributes to the referenced-key snapshot:
its thumbnail when under the product-image or product-thumbnail prefix, and
its gallery entries under the product-image prefix. -/
def pContrib (p : Product) (k : String) : Prop :=
  (p.thumbnail = some k ∧ (startsW k productImagePre = true ∨
      startsW k productThumbnailPre = true)) ∨
  (k ∈ p.images ∧ startsW k productImagePre = true)

/-- What a category document contributes to the referenced-key snapshot. -/
def cContrib (c : Category) (k : String) : Prop :=
  c.thumbnail = some k ∧ startsW k categoryThumbnailPre = true

/-- Membership after one collector step over a product. -/
theorem mem_collectProduct {acc : List String} {p : Product} {a : String} :
    a ∈ collectProduct acc p ↔ a ∈ acc ∨ pContrib p a := by
  unfold collectProduct pContrib
  cases ht : p.thumbnail with
  | none => rw [mem_addAllIf]; simp
  | some t =>
      by_cases hst :
          (startsW t productImagePre || startsW t productThumbnailPre) = true
      · rw [mem_addAllIf]
        simp only [hst, if_true, mem_sadd, Option.some.injEq]
        constructor
        · rintro ((h | rfl) | h)
          · exact Or.inl h
          · exact Or.inr (Or.inl ⟨rfl, Eq.mp (Bool.or_eq_true _ _) hst⟩)
          · exact Or.inr (Or.inr h)
        · rintro (h | (⟨rfl, h⟩ | h))
          · exact Or.inl (Or.inl h)
          · exact Or.inl (Or.inr rfl)
          · exact Or.inr h
      · rw [mem_addAllIf]
        simp only [hst, Bool.false_eq_true, if_false, ite_false,
          Option.some.injEq]
        constructor
        · rintro (h | h)
          · exact Or.inl h
          · exact Or.inr (Or.inr h)
        · rintro (h | (⟨rfl, h⟩ | h))
          · exact Or.inl h
          · exact absurd (Eq.mpr (Bool.or_eq_true _ _) h) hst
          · exact Or.inr h

/-- Membership after folding the collector over a product list. -/
theorem mem_foldl_collectProduct :
    ∀ {ps : List Product} {acc : List String} {a : String},
      a ∈ ps.foldl collectProduct acc ↔ a ∈ acc ∨ ∃ p ∈ ps, pContrib p a
  | [], acc, a => by simp
  | p :: ps, acc, a => by
      rw [List.foldl_cons, mem_foldl_collectProduct, mem_collectProduct]
      simp only [List.mem_cons]
      constructor
      · rintro ((h | h) | ⟨q, hq, hqc⟩)
        · exact Or.inl h
        · exact Or.inr ⟨p, Or.inl rfl, h⟩
        · exact Or.inr ⟨q, Or.inr hq, hqc⟩
      · rintro (h | ⟨q, (rfl | hq), hqc⟩)
        · exact Or.inl (Or.inl h)
        · exact Or.inl (Or.inr hqc)
        · exact Or.inr ⟨q, hq, hqc⟩

/-- Membership after one collector step over a category. -/
theorem mem_collectCategory {acc : List String} {c : Category} {a : String} :
    a ∈ collectCategory acc c ↔ a ∈ acc ∨ cContrib c a := by
  unfold collectCategory cContrib
  cases ht : c.thumbnail with
  | none => simp
  | some t =>
      by_cases hst : startsW t categoryThumbnailPre = true
      · simp only [hst, if_true, mem_sadd, Option.some.injEq]
        constructor
        · rintro (h | rfl)
          · exact Or.inl h
          · exact Or.inr ⟨rfl, hst⟩
        · rintro (h | ⟨rfl, h⟩)
          · exact Or.inl h
          · exact Or.inr rfl
      · simp only [hst, Bool.false_eq_true, if_false, ite_false,
          Option.some.injEq]
        constructor
        · exact Or.inl
        · rintro (h | ⟨rfl, h⟩)
          · exact h
          · exact absurd h hst

/-- Membership after folding the collector over a category list. -/
theorem mem_foldl_collectCategory :
    ∀ {cs : List Category} {acc : List String} {a : String},
      a ∈ cs.foldl collectCategory acc ↔ a ∈ acc ∨ ∃ c ∈ cs, cContrib c a
  | [], acc, a => by simp
  | c :: cs, acc, a => by
      rw [List.foldl_cons, mem_foldl_collectCategory, mem_collectCategory]
      simp only [List.mem_cons]
      constructor
      · rintro ((h | h) | ⟨q, hq, hqc⟩)
        · exact Or.inl h
        · exact Or.inr ⟨c, Or.inl rfl, h⟩
        · exact Or.inr ⟨q, Or.inr hq, hqc⟩
      · rintro (h | ⟨q, (rfl | hq), hqc⟩)
        · exact Or.inl (Or.inl h)
        · exact Or.inl (Or.inr hqc)
        · exact Or.inr ⟨q, hq, hqc⟩

/-- A contributing product passes the snapshot query's `$or` filter: the
filter never drops a contribution (it is only an optimization). -/
theorem pContrib_queryMatches {p : Product} {a : String} (h : pContrib p a) :
    productQueryMatches p = true := by
  unfold productQueryMatches
  rcases h with ⟨ht, hs⟩ | ⟨hi, hs⟩
  · rw [ht]
    rcases hs with hs | hs <;> simp [startsWCI_of_startsW hs]
  · have : p.images.isEmpty = false := by
      cases hpi : p.images with
      | nil => rw [hpi] at hi; cases hi
      | cons x l => rfl
    simp [this]

/-- A contributing category passes the snapshot query's filter. -/
theorem cContrib_queryMatches {c : Category} {a : String} (h : cContrib c a) :
    categoryQueryMatches c = true := by
  unfold categoryQueryMatches
  obtain ⟨ht, hs⟩ := h
  rw [ht]
  exact startsWCI_of_startsW hs

/-- The referenced-key snapshot contains exactly the keys contributed by
some product or category document. -/
theorem mem_dbKeys {w : World} {a : String} :
    a ∈ getMediaKeysFromDatabase w ↔
      (∃ p ∈ w.products, pContrib p a) ∨ ∃ c ∈ w.categories, cContrib c a := by
  unfold getMediaKeysFromDatabase
  rw [mem_foldl_collectCategory, mem_foldl_collectProduct]
  simp only [List.not_mem_nil, false_or]
  constructor
  · rintro (⟨p, hp, hpc⟩ | ⟨c, hc, hcc⟩)
    · exact Or.inl ⟨p, (List.mem_filter.1 hp).1, hpc⟩
    · exact Or.inr ⟨c, (List.mem_filter.1 hc).1, hcc⟩
  · rintro (⟨p, hp, hpc⟩ | ⟨c, hc, hcc⟩)
    · exact Or.inl ⟨p, List.mem_filter.2 ⟨hp, pContrib_queryMatches hpc⟩, hpc⟩
    · exact Or.inr ⟨c, List.mem_filter.2 ⟨hc, cContrib_queryMatches hcc⟩, hcc⟩

/-- The stored-key snapshot contains exactly the bucket keys under a managed
prefix. -/
theorem mem_r2Keys {w : World} {a : String} :
    a ∈ getMediaKeysFromR2 w ↔ a ∈ w.bucket ∧ managedKey a = true := by
  unfold getMediaKeysFromR2 getR2KeysWithPre managedKey
  rw [mem_addAllIf, mem_addAllIf, mem_addAllIf]
  simp only [List.not_mem_nil, false_or, Bool.or_eq_true]
  constructor
  · rintro ((⟨h, hs⟩ | ⟨h, hs⟩) | ⟨h, hs⟩)
    · exact ⟨h, Or.inl (Or.inl hs)⟩
    · exact ⟨h, Or.inl (Or.inr hs)⟩
    · exact ⟨h, Or.inr hs⟩
  · rintro ⟨h, (hs | hs) | hs⟩
    · exact Or.inl (Or.inl ⟨h, hs⟩)
    · exact Or.inl (Or.inr ⟨h, hs⟩)
    · exact Or.inr ⟨h, hs⟩

/-- The collector produces a deduplicated list. -/
theorem nodup_dbKeys (w : World) : (getMediaKeysFromDatabase w).Nodup := by
  unfold getMediaKeysFromDatabase
  have h1 : ∀ (ps : List Product) (acc : List String), acc.Nodup →
      (ps.foldl collectProduct acc).Nodup := by
    intro ps
    induction ps with
    | nil => exact fun acc h => h
    | cons p ps ih =>
        intro acc h
        refine ih _ ?_
        unfold collectProduct
        refine nodup_addAllIf ?_
        cases ht : p.thumbnail with
        | none => simpa only [ht] using h
        | some t =>
            simp only [ht]
            split <;> [exact nodup_sadd h; exact h]
  have h2 : ∀ (cs : List Category) (acc : List String), acc.Nodup →
      (cs.foldl collectCategory acc).Nodup := by
    intro cs
    induction cs with
    | nil => exact fun acc h => h
    | cons c cs ih =>
        intro acc h
        refine ih _ ?_
        unfold collectCategory
        cases ht : c.thumbnail with
        | none => simpa only [ht] using h
        | some t =>
            simp only [ht]
            split <;> [exact nodup_sadd h; exact h]
  exact h2 _ _ (h1 _ _ List.nodup_nil)

/-- The lister produces a deduplicated list (overlapping prefixes are
deduplicated by the JS `Set`). -/
theorem nodup_r2Keys (w : World) : (getMediaKeysFromR2 w).Nodup :=
  nodup_addAllIf (nodup_addAllIf (nodup_addAllIf List.nodup_nil))

/-- On the failure-free environment the grouped cleanup succeeds, applying
each non-empty field group's update and recording its operation. -/
theorem cleanupDangling_ok (dk : List String) (w : World) (tr : List Op) :
    cleanupDangling okEnv dk w tr = .ok (
      { products :=
          (if (!(dk.filter (fun k => startsW k productThumbnailPre)).isEmpty)
              = true then
            setProductThumbNull (dk.filter
              (fun k => startsW k productThumbnailPre))
          else id)
          ((if (!(dk.filter (fun k => startsW k productImagePre)).isEmpty)
              = true then
            pullImagesUpd (dk.filter (fun k => startsW k productImagePre))
          else id) w.products),
        categories :=
          (if (!(dk.filter (fun k => startsW k categoryThumbnailPre)).isEmpty)
              = true then
            setCategoryThumbNull (dk.filter
              (fun k => startsW k categoryThumbnailPre))
          else id) w.categories,
        bucket := w.bucket },
      tr ++ ((if (dk.filter (fun k => startsW k productImagePre)).isEmpty
          then [] else [Op.pullImages (dk.filter
            (fun k => startsW k productImagePre))]) ++
        (if (dk.filter (fun k => startsW k productThumbnailPre)).isEmpty
          then [] else [Op.setProductThumbsNull (dk.filter
            (fun k => startsW k productThumbnailPre))]) ++
        (if (dk.filter (fun k => startsW k categoryThumbnailPre)).isEmpty
          then [] else [Op.setCategoryThumbsNull (dk.filter
            (fun k => startsW k categoryThumbnailPre))]))) := by
  by_cases hdk : dk.isEmpty = true
  · have hdk' : dk = [] := by
      cases dk with
      | nil => rfl
      | cons a l => simp at hdk
    subst hdk'
    simp [cleanupDangling]
  · simp only [cleanupDangling, hdk, Bool.false_eq_true, if_false, ite_false,
      okEnv, Bool.and_false, Bool.or_self, Bool.not_false, Bool.and_true]
    simp only [ite_apply, id_eq, List.append_assoc]

/-- Keys are outside all delete batches exactly when outside the orphaned
set: the batches partition the orphaned keys. -/
theorem notin_chunks_iff (w : World) (k : String) :
    (∀ b ∈ chunks (orphanedOf w), k ∉ b) ↔ k ∉ orphanedOf w := by
  constructor
  · intro h hk
    rw [← chunks_join (orphanedOf w)] at hk
    obtain ⟨b, hb, hkb⟩ := List.mem_flatten.1 hk
    exact h b hb hkb
  · intro h b hb hkb
    exact h (by
      rw [← chunks_join (orphanedOf w)]
      exact List.mem_flatten.2 ⟨b, hb, hkb⟩)

/-- The failure-free reconciliation run: the returned counts are the sizes
of the two snapshot difference sets, the bucket loses exactly the orphaned
keys, and the database receives exactly the grouped dangling-key updates. -/
theorem runClean_spec (w : World) :
    (runClean w).res = ⟨(orphanedOf w).length, (danglingOf w).length⟩ ∧
    (∀ k, k ∈ (runClean w).w.bucket ↔ k ∈ w.bucket ∧ k ∉ orphanedOf w) ∧
    (runClean w).w.products =
      (if (!((danglingOf w).filter
          (fun k => startsW k productThumbnailPre)).isEmpty) = true then
        setProductThumbNull ((danglingOf w).filter
          (fun k => startsW k productThumbnailPre))
      else id)
      ((if (!((danglingOf w).filter
          (fun k => startsW k productImagePre)).isEmpty) = true then
        pullImagesUpd ((danglingOf w).filter
          (fun k => startsW k productImagePre))
      else id) w.products) ∧
    (runClean w).w.categories =
      (if (!((danglingOf w).filter
          (fun k => startsW k categoryThumbnailPre)).isEmpty) = true then
        setCategoryThumbNull ((danglingOf w).filter
          (fun k => startsW k categoryThumbnailPre))
      else id) w.categories := by
  obtain ⟨w1, hrb, hp1, hc1, hb1⟩ :=
    runBatches_none (chunks (orphanedOf w)) 0 w
      [Op.dbQuery, Op.listR2 productImagePre (listedKeys w productImagePre),
        Op.listR2 productThumbnailPre (listedKeys w productThumbnailPre),
        Op.listR2 categoryThumbnailPre (listedKeys w categoryThumbnailPre)]
  have hdan := cleanupDangling_ok (danglingOf w) w1
    ([Op.dbQuery, Op.listR2 productImagePre (listedKeys w productImagePre),
        Op.listR2 productThumbnailPre (listedKeys w productThumbnailPre),
        Op.listR2 categoryThumbnailPre (listedKeys w categoryThumbnailPre)]
      ++ (chunks (orphanedOf w)).map Op.deleteBatch)
  simp only [orphanedOf] at hrb
  simp only [danglingOf, orphanedOf, okEnv] at hdan
  simp only [runClean, cleanupMediaFiles, deleteOrphanedR2Files, okEnv,
    Bool.false_eq_true, if_false, ite_false, hrb, hdan]
  refine ⟨by simp only [orphanedOf, danglingOf], ?_, ?_, ?_⟩
  · intro k
    rw [hb1 k, notin_chunks_iff w k]
  · simp only [danglingOf]
    rw [hp1]
  · simp only [danglingOf]
    rw [hc1]

/-- Membership in the gallery field group of the dangling set. -/
theorem mem_pImg {w : World} {k : String} :
    k ∈ (danglingOf w).filter (fun k => startsW k productImagePre) ↔
      k ∈ getMediaKeysFromDatabase w ∧ startsW k productImagePre = true ∧
        k ∉ w.bucket := by
  rw [List.mem_filter]
  unfold danglingOf
  rw [List.mem_filter]
  simp only [Bool.not_eq_eq_eq_not, Bool.not_true, decide_eq_false_iff_not,
    mem_r2Keys]
  constructor
  · rintro ⟨⟨hdb, hr2⟩, hs⟩
    exact ⟨hdb, hs, fun hb => hr2 ⟨hb, by
      unfold managedKey
      simp [hs]⟩⟩
  · rintro ⟨hdb, hs, hb⟩
    exact ⟨⟨hdb, fun h => hb h.1⟩, hs⟩

/-- Membership in the product-thumbnail field group of the dangling set. -/
theorem mem_pThm {w : World} {k : String} :
    k ∈ (danglingOf w).filter (fun k => startsW k productThumbnailPre) ↔
      k ∈ getMediaKeysFromDatabase w ∧ startsW k productThumbnailPre = true ∧
        k ∉ w.bucket := by
  rw [List.mem_filter]
  unfold danglingOf
  rw [List.mem_filter]
  simp only [Bool.not_eq_eq_eq_not, Bool.not_true, decide_eq_false_iff_not,
    mem_r2Keys]
  constructor
  · rintro ⟨⟨hdb, hr2⟩, hs⟩
    exact ⟨hdb, hs, fun hb => hr2 ⟨hb, by
      unfold managedKey
      simp [hs]⟩⟩
  · rintro ⟨hdb, hs, hb⟩
    exact ⟨⟨hdb, fun h => hb h.1⟩, hs⟩

/-- Membership in the category-thumbnail field group of the dangling set. -/
theorem mem_cThm {w : World} {k : String} :
    k ∈ (danglingOf w).filter (fun k => startsW k categoryThumbnailPre) ↔
      k ∈ getMediaKeysFromDatabase w ∧ startsW k categoryThumbnailPre = true ∧
        k ∉ w.bucket := by
  rw [List.mem_filter]
  unfold danglingOf
  rw [List.mem_filter]
  simp only [Bool.not_eq_eq_eq_not, Bool.not_true, decide_eq_false_iff_not,
    mem_r2Keys]
  constructor
  · rintro ⟨⟨hdb, hr2⟩, hs⟩
    exact ⟨hdb, hs, fun hb => hr2 ⟨hb, by
      unfold managedKey
      simp [hs]⟩⟩
  · rintro ⟨hdb, hs, hb⟩
    exact ⟨⟨hdb, fun h => hb h.1⟩, hs⟩

/-- A product's prefixed thumbnail is collected into the snapshot. -/
theorem thumb_mem_dbKeys {w : World} {p : Product} {t : String}
    (hp : p ∈ w.products) (ht : p.thumbnail = some t)
    (hs : startsW t productImagePre = true ∨
      startsW t productThumbnailPre = true) :
    t ∈ getMediaKeysFromDatabase w :=
  mem_dbKeys.2 (Or.inl ⟨p, hp, Or.inl ⟨ht, hs⟩⟩)

/-- A product's prefixed gallery entry is collected into the snapshot. -/
theorem image_mem_dbKeys {w : World} {p : Product} {k : String}
    (hp : p ∈ w.products) (hk : k ∈ p.images)
    (hs : startsW k productImagePre = true) :
    k ∈ getMediaKeysFromDatabase w :=
  mem_dbKeys.2 (Or.inl ⟨p, hp, Or.inr ⟨hk, hs⟩⟩)

/-- A category's prefixed thumbnail is collected into the snapshot. -/
theorem catthumb_mem_dbKeys {w : World} {c : Category} {t : String}
    (hc : c ∈ w.categories) (ht : c.thumbnail = some t)
    (hs : startsW t categoryThumbnailPre = true) :
    t ∈ getMediaKeysFromDatabase w :=
  mem_dbKeys.2 (Or.inr ⟨c, hc, ⟨ht, hs⟩⟩)

/-- For a gallery entry of a live product, membership in the pull group is
the semantic removal condition: prefixed and missing from the bucket. -/
theorem image_key_cond {w : World} {p : Product} {k : String}
    (hp : p ∈ w.products) (hk : k ∈ p.images) :
    decide (k ∈ (danglingOf w).filter
        (fun k => startsW k productImagePre)) =
      (startsW k productImagePre && !(decide (k ∈ w.bucket))) := by
  rw [Bool.eq_iff_iff]
  simp only [decide_eq_true_eq, Bool.and_eq_true, Bool.not_eq_eq_eq_not,
    Bool.not_true, decide_eq_false_iff_not, mem_pImg]
  constructor
  · rintro ⟨-, hs, hb⟩
    exact ⟨hs, hb⟩
  · rintro ⟨hs, hb⟩
    exact ⟨image_mem_dbKeys hp hk hs, hs, hb⟩

/-- The semantic per-product post-state of a failure-free run: the thumbnail
is nulled exactly when it lies under the product-thumbnail prefix and is
missing from the bucket; gallery entries survive exactly unless they lie
under the product-image prefix and are missing from the bucket. -/
def fixProduct (bucket : List String) (p : Product) : Product :=
  { thumbnail :=
      match p.thumbnail with
      | some t =>
          if startsW t productThumbnailPre = true ∧ t ∉ bucket then none
          else some t
      | none => none,
    images := p.images.filter
      (fun k => !(startsW k productImagePre && !(decide (k ∈ bucket)))) }

/-- The semantic per-category post-state of a failure-free run. -/
def fixCategory (bucket : List String) (c : Category) : Category :=
  { thumbnail :=
      match c.thumbnail with
      | some t =>
          if startsW t categoryThumbnailPre = true ∧ t ∉ bucket then none
          else some t
      | none => none }

/-- The failure-free run maps every product through `fixProduct`. -/
theorem runClean_products (w : World) :
    (runClean w).w.products = w.products.map (fixProduct w.bucket) := by
  obtain ⟨-, -, hp, -⟩ := runClean_spec w
  rw [hp]
  have step1 : (if (!((danglingOf w).filter
      (fun k => startsW k productImagePre)).isEmpty) = true then
        pullImagesUpd ((danglingOf w).filter
          (fun k => startsW k productImagePre))
      else id) w.products =
      w.products.map (fun p =>
        (⟨p.thumbnail, p.images.filter (fun k => !(startsW k productImagePre && !(decide (k ∈ w.bucket))))⟩ : Product)) := by
    by_cases hc1 : (!((danglingOf w).filter
        (fun k => startsW k productImagePre)).isEmpty) = true
    · simp only [hc1, if_true]
      unfold pullImagesUpd
      refine List.map_congr_left fun p hpp => ?_
      by_cases hany : (p.images.any (fun k => decide (k ∈ (danglingOf w).filter
          (fun k => startsW k productImagePre)))) = true
      · simp only [hany, if_true]
        have h4 : p.images.filter (fun k => !(decide (k ∈ (danglingOf w).filter
            (fun k => startsW k productImagePre)))) =
            p.images.filter (fun k => !(startsW k productImagePre &&
              !(decide (k ∈ w.bucket)))) :=
          List.filter_congr fun k hk => by rw [image_key_cond hpp hk]
        rw [h4]
      · simp only [hany, Bool.false_eq_true, if_false, ite_false]
        have h4 : p.images.filter (fun k => !(startsW k productImagePre &&
            !(decide (k ∈ w.bucket)))) = p.images := by
          refine List.filter_eq_self.mpr fun k hk => ?_
          rw [← image_key_cond hpp hk]
          simp only [Bool.not_eq_true', decide_eq_false_iff_not]
          intro hmem
          exact absurd (List.any_eq_true.2 ⟨k, hk, by simpa using hmem⟩) hany
        rw [h4]
    · simp only [hc1, if_false, ite_false, id_eq]
      have hemp : ((danglingOf w).filter
          (fun k => startsW k productImagePre)) = [] := by
        rcases hc : (danglingOf w).filter
            (fun k => startsW k productImagePre) with _ | ⟨a, l⟩
        · rfl
        · rw [hc] at hc1
          simp at hc1
      symm
      have hmap : w.products.map (fun p =>
          (⟨p.thumbnail, p.images.filter (fun k => !(startsW k productImagePre && !(decide (k ∈ w.bucket))))⟩ : Product)) =
          w.products.map id := by
        refine List.map_congr_left fun p hpp => ?_
        have h5 : p.images.filter (fun k => !(startsW k productImagePre &&
            !(decide (k ∈ w.bucket)))) = p.images := by
          refine List.filter_eq_self.mpr fun k hk => ?_
          rw [← image_key_cond hpp hk]
          simp only [Bool.not_eq_true', decide_eq_false_iff_not]
          intro hmem
          rw [hemp] at hmem
          cases hmem
        rw [h5, id_eq]
      rw [hmap, List.map_id]
      simp
  rw [step1]
  by_cases hc2 : (!((danglingOf w).filter
      (fun k => startsW k productThumbnailPre)).isEmpty) = true
  · simp only [hc2, if_true]
    unfold setProductThumbNull
    rw [List.map_map]
    refine List.map_congr_left fun p hpp => ?_
    rcases p with ⟨tp, imgs⟩
    simp only [Function.comp]
    cases tp with
    | none => simp [fixProduct]
    | some t =>
        by_cases htm : t ∈ (danglingOf w).filter
            (fun k => startsW k productThumbnailPre)
        · have hcnd := mem_pThm.1 htm
          simp [fixProduct, htm, hcnd.2.1, hcnd.2.2]
        · have hno : ¬(startsW t productThumbnailPre = true ∧
              t ∉ w.bucket) := by
            rintro ⟨hs, hb⟩
            exact htm (mem_pThm.2
              ⟨thumb_mem_dbKeys hpp rfl (Or.inr hs), hs, hb⟩)
          simp [fixProduct, htm, hno]
  · simp only [hc2, if_false, ite_false, id_eq]
    have hemp : ((danglingOf w).filter
        (fun k => startsW k productThumbnailPre)) = [] := by
      rcases hc : (danglingOf w).filter
          (fun k => startsW k productThumbnailPre) with _ | ⟨a, l⟩
      · rfl
      · rw [hc] at hc2
        simp at hc2
    refine List.map_congr_left fun p hpp => ?_
    rcases p with ⟨tp, imgs⟩
    cases tp with
    | none => simp [fixProduct]
    | some t =>
        have hno : ¬(startsW t productThumbnailPre = true ∧
            t ∉ w.bucket) := by
          rintro ⟨hs, hb⟩
          have hmem := mem_pThm.2
            ⟨thumb_mem_dbKeys hpp rfl (Or.inr hs), hs, hb⟩
          rw [hemp] at hmem
          cases hmem
        simp [fixProduct, hno]

/-- The failure-free run maps every category through `fixCategory`. -/
theorem runClean_categories (w : World) :
    (runClean w).w.categories = w.categories.map (fixCategory w.bucket) := by
  obtain ⟨-, -, -, hc⟩ := runClean_spec w
  rw [hc]
  by_cases hc3 : (!((danglingOf w).filter
      (fun k => startsW k categoryThumbnailPre)).isEmpty) = true
  · simp only [hc3, if_true]
    unfold setCategoryThumbNull
    refine List.map_congr_left fun c hcc => ?_
    rcases c with ⟨tc⟩
    cases tc with
    | none => simp [fixCategory]
    | some t =>
        by_cases htm : t ∈ (danglingOf w).filter
            (fun k => startsW k categoryThumbnailPre)
        · have hcnd := mem_cThm.1 htm
          simp [fixCategory, htm, hcnd.2.1, hcnd.2.2]
        · have hno : ¬(startsW t categoryThumbnailPre = true ∧
              t ∉ w.bucket) := by
            rintro ⟨hs, hb⟩
            exact htm (mem_cThm.2 ⟨catthumb_mem_dbKeys hcc rfl hs, hs, hb⟩)
          simp [fixCategory, htm, hno]
  · simp only [hc3, if_false, ite_false, id_eq]
    have hemp : ((danglingOf w).filter
        (fun k => startsW k categoryThumbnailPre)) = [] := by
      rcases hcc : (danglingOf w).filter
          (fun k => startsW k categoryThumbnailPre) with _ | ⟨a, l⟩
      · rfl
      · rw [hcc] at hc3
        simp at hc3
    symm
    have hmap : w.categories.map (fixCategory w.bucket) =
        w.categories.map id := by
      refine List.map_congr_left fun c hcc => ?_
      rcases c with ⟨tc⟩
      cases tc with
      | none => simp [fixCategory]
      | some t =>
          have hno : ¬(startsW t categoryThumbnailPre = true ∧
              t ∉ w.bucket) := by
            rintro ⟨hs, hb⟩
            have hmem := mem_cThm.2
              ⟨catthumb_mem_dbKeys hcc rfl hs, hs, hb⟩
            rw [hemp] at hmem
            cases hmem
          simp [fixCategory, hno]
    rw [hmap, List.map_id]
    simp

/-- Inversion for the post-state thumbnail of a product. -/
theorem fixProduct_thumb_some {bucket : List String} {p : Product}
    {k : String} :
    (fixProduct bucket p).thumbnail = some k ↔
      p.thumbnail = some k ∧
        ¬(startsW k productThumbnailPre = true ∧ k ∉ bucket) := by
  rcases p with ⟨tp, imgs⟩
  cases tp with
  | none => simp [fixProduct]
  | some t =>
      simp only [fixProduct]
      by_cases hcond : startsW t productThumbnailPre = true ∧ t ∉ bucket
      · simp only [hcond, if_true]
        constructor
        · intro h
          cases h
        · rintro ⟨hk, hn⟩
          rw [Option.some.injEq] at hk
          subst hk
          exact absurd hcond hn
      · simp only [hcond, if_false, ite_false]
        constructor
        · intro h
          rw [Option.some.injEq] at h
          subst h
          exact ⟨rfl, hcond⟩
        · exact fun h => h.1

/-- Inversion for the post-state gallery of a product. -/
theorem mem_fixProduct_images {bucket : List String} {p : Product}
    {k : String} :
    k ∈ (fixProduct bucket p).images ↔
      k ∈ p.images ∧ ¬(startsW k productImagePre = true ∧ k ∉ bucket) := by
  simp only [fixProduct, List.mem_filter, Bool.not_eq_eq_eq_not, Bool.not_true,
    Bool.and_eq_false_imp, Bool.not_eq_eq_eq_not, Bool.not_false,
    decide_eq_true_eq]
  constructor
  · rintro ⟨hk, hc⟩
    refine ⟨hk, ?_⟩
    rintro ⟨hs, hb⟩
    exact hb (hc hs)
  · rintro ⟨hk, hc⟩
    refine ⟨hk, fun hs => ?_⟩
    by_contra hb
    exact hc ⟨hs, hb⟩

/-- Inversion for the post-state thumbnail of a category. -/
theorem fixCategory_thumb_some {bucket : List String} {c : Category}
    {k : String} :
    (fixCategory bucket c).thumbnail = some k ↔
      c.thumbnail = some k ∧
        ¬(startsW k categoryThumbnailPre = true ∧ k ∉ bucket) := by
  rcases c with ⟨tc⟩
  cases tc with
  | none => simp [fixCategory]
  | some t =>
      simp only [fixCategory]
      by_cases hcond : startsW t categoryThumbnailPre = true ∧ t ∉ bucket
      · simp only [hcond, if_true]
        constructor
        · intro h
          cases h
        · rintro ⟨hk, hn⟩
          rw [Option.some.injEq] at hk
          subst hk
          exact absurd hcond hn
      · simp only [hcond, if_false, ite_false]
        constructor
        · intro h
          rw [Option.some.injEq] at h
          subst h
          exact ⟨rfl, hcond⟩
        · exact fun h => h.1

/-- Membership in the orphaned set. -/
theorem mem_orphanedOf {w : World} {k : String} :
    k ∈ orphanedOf w ↔
      k ∈ getMediaKeysFromR2 w ∧ k ∉ getMediaKeysFromDatabase w := by
  unfold orphanedOf
  rw [List.mem_filter]
  simp

/-- Membership in the dangling set. -/
theorem mem_danglingOf {w : World} {k : String} :
    k ∈ danglingOf w ↔
      k ∈ getMediaKeysFromDatabase w ∧ k ∉ getMediaKeysFromR2 w := by
  unfold danglingOf
  rw [List.mem_filter]
  simp

/-- The orphaned count equals the cardinality of the set difference
`storageKeys − referencedKeys`. -/
theorem length_orphanedOf (w : World) :
    (orphanedOf w).length = ((getMediaKeysFromR2 w).toFinset \
      (getMediaKeysFromDatabase w).toFinset).card := by
  have hnd : (orphanedOf w).Nodup := (nodup_r2Keys w).filter _
  rw [← List.toFinset_card_of_nodup hnd]
  congr 1
  ext a
  simp only [List.mem_toFinset, Finset.mem_sdiff, mem_orphanedOf]

/-- The dangling count equals the cardinality of the set difference
`referencedKeys − storageKeys`. -/
theorem length_danglingOf (w : World) :
    (danglingOf w).length = ((getMediaKeysFromDatabase w).toFinset \
      (getMediaKeysFromR2 w).toFinset).card := by
  have hnd : (danglingOf w).Nodup := (nodup_dbKeys w).filter _
  rw [← List.toFinset_card_of_nodup hnd]
  congr 1
  ext a
  simp only [List.mem_toFinset, Finset.mem_sdiff, mem_danglingOf]

/-- C2 (amended): a failure-free run returns counts equal to the
cardinalities of the two snapshot difference sets and deletes from storage
exactly `storageKeys − referencedKeys`; on the document side it removes a
dangling key from gallery arrays whenever the key is under `img/product/`
and nulls thumbnails whenever the key is under `img/product/thumbnail/`
(products) or `img/category/thumbnail/` (categories) — a dangling product
thumbnail under the bare `img/product/` prefix (outside the thumbnail
prefix) is counted but NOT removed. -/
theorem c2_reconcile_exact (w : World) :
    (runClean w).res.orphanedR2Files =
        ((getMediaKeysFromR2 w).toFinset \
          (getMediaKeysFromDatabase w).toFinset).card ∧
    (runClean w).res.danglingSavedReferences =
        ((getMediaKeysFromDatabase w).toFinset \
          (getMediaKeysFromR2 w).toFinset).card ∧
    (∀ k, k ∈ (runClean w).w.bucket ↔
        k ∈ w.bucket ∧ (k ∈ getMediaKeysFromR2 w →
          k ∈ getMediaKeysFromDatabase w)) ∧
    (runClean w).w.products = w.products.map (fixProduct w.bucket) ∧
    (runClean w).w.categories = w.categories.map (fixCategory w.bucket) := by
  obtain ⟨hres, hbuck, -, -⟩ := runClean_spec w
  refine ⟨?_, ?_, ?_, runClean_products w, runClean_categories w⟩
  · rw [hres, ← length_orphanedOf]
  · rw [hres, ← length_danglingOf]
  · intro k
    rw [hbuck k, mem_orphanedOf]
    constructor
    · rintro ⟨hb, hno⟩
      refine ⟨hb, fun hr2 => ?_⟩
      by_contra hdb
      exact hno ⟨hr2, hdb⟩
    · rintro ⟨hb, himp⟩
      exact ⟨hb, fun hmem => hmem.2 (himp hmem.1)⟩

/-- World for the C2 counterexample: a product whose thumbnail sits under
the bare `img/product/` prefix and is missing from storage. -/
def wC2 : World := ⟨[⟨some "img/product/b", []⟩], [], []⟩

/-- Counterexample to C2 as stated: the key `img/product/b` belongs to
`referencedKeys − storageKeys` and is counted (`danglingSavedReferences =
1`), yet it is NOT removed from the product's thumbnail field — the run
does not remove exactly the difference set from document fields. -/
theorem c2_counterexample :
    "img/product/b" ∈ getMediaKeysFromDatabase wC2 ∧
    "img/product/b" ∉ getMediaKeysFromR2 wC2 ∧
    (runClean wC2).res.danglingSavedReferences = 1 ∧
    (runClean wC2).w.products = [⟨some "img/product/b", []⟩] := by
  decide

/-- C6 (amended): a second failure-free run right after a first one returns
`{0, 0}`, PROVIDED no product thumbnail holds a key under the bare
`img/product/` prefix that is outside `img/product/thumbnail/` and missing
from storage — the first run cannot repair such references (the `$pull`
group only touches gallery arrays), so they are re-reported on every run. -/
theorem c6_idempotent (w : World)
    (h : ∀ p ∈ w.products, ∀ t : String, p.thumbnail = some t →
        startsW t productImagePre = true →
        startsW t productThumbnailPre = true ∨ t ∈ w.bucket) :
    (runClean (runClean w).w).res = ⟨0, 0⟩ := by
  have hb1 := (runClean_spec w).2.1
  have hp1 := runClean_products w
  have hc1 := runClean_categories w
  have hdb1 : ∀ k, k ∈ getMediaKeysFromR2 (runClean w).w →
      k ∈ getMediaKeysFromDatabase (runClean w).w := by
    intro k hk
    rw [mem_r2Keys] at hk
    obtain ⟨hkb1, hman⟩ := hk
    rw [hb1 k] at hkb1
    obtain ⟨hkb, hnorph⟩ := hkb1
    have hkr2 : k ∈ getMediaKeysFromR2 w := mem_r2Keys.2 ⟨hkb, hman⟩
    have hkdb : k ∈ getMediaKeysFromDatabase w := by
      by_contra hkdb
      exact hnorph (mem_orphanedOf.2 ⟨hkr2, hkdb⟩)
    rw [mem_dbKeys] at hkdb
    rw [mem_dbKeys, hp1, hc1]
    rcases hkdb with ⟨p, hp, hpc⟩ | ⟨c, hc, hcc⟩
    · refine Or.inl ⟨fixProduct w.bucket p, List.mem_map_of_mem _ hp, ?_⟩
      rcases hpc with ⟨ht, hs⟩ | ⟨hi, hs⟩
      · exact Or.inl ⟨fixProduct_thumb_some.2 ⟨ht, fun hc => hc.2 hkb⟩, hs⟩
      · exact Or.inr ⟨mem_fixProduct_images.2 ⟨hi, fun hc => hc.2 hkb⟩, hs⟩
    · refine Or.inr ⟨fixCategory w.bucket c, List.mem_map_of_mem _ hc, ?_⟩
      obtain ⟨ht, hs⟩ := hcc
      exact ⟨fixCategory_thumb_some.2 ⟨ht, fun hc => hc.2 hkb⟩, hs⟩
  have hr21 : ∀ k, k ∈ getMediaKeysFromDatabase (runClean w).w →
      k ∈ getMediaKeysFromR2 (runClean w).w := by
    intro k hk
    rw [mem_dbKeys, hp1, hc1] at hk
    rw [mem_r2Keys]
    rcases hk with ⟨p1, hp1m, hpc⟩ | ⟨c1, hc1m, hcc⟩
    · obtain ⟨p, hp, rfl⟩ := List.mem_map.1 hp1m
      rcases hpc with ⟨ht1, hs⟩ | ⟨hi1, hs⟩
      · obtain ⟨htp, hnot⟩ := fixProduct_thumb_some.1 ht1
        have hkb : k ∈ w.bucket := by
          by_cases hpre2 : startsW k productThumbnailPre = true
          · by_contra hkb
            exact hnot ⟨hpre2, hkb⟩
          · rcases hs with hs1 | hs2
            · rcases h p hp k htp hs1 with h2 | h2
              · exact absurd h2 hpre2
              · exact h2
            · exact absurd hs2 hpre2
        have hman : managedKey k = true := by
          unfold managedKey
          rcases hs with hs | hs <;> simp [hs]
        have hdbw : k ∈ getMediaKeysFromDatabase w :=
          thumb_mem_dbKeys hp htp hs
        refine ⟨(hb1 k).2 ⟨hkb, fun ho => ?_⟩, hman⟩
        exact (mem_orphanedOf.1 ho).2 hdbw
      · obtain ⟨hip, hnot⟩ := mem_fixProduct_images.1 hi1
        have hkb : k ∈ w.bucket := by
          by_contra hkb
          exact hnot ⟨hs, hkb⟩
        have hman : managedKey k = true := by
          unfold managedKey
          simp [hs]
        have hdbw : k ∈ getMediaKeysFromDatabase w :=
          image_mem_dbKeys hp hip hs
        refine ⟨(hb1 k).2 ⟨hkb, fun ho => ?_⟩, hman⟩
        exact (mem_orphanedOf.1 ho).2 hdbw
    · obtain ⟨c, hc, rfl⟩ := List.mem_map.1 hc1m
      obtain ⟨ht1, hs⟩ := hcc
      obtain ⟨htc, hnot⟩ := fixCategory_thumb_some.1 ht1
      have hkb : k ∈ w.bucket := by
        by_contra hkb
        exact hnot ⟨hs, hkb⟩
      have hman : managedKey k = true := by
        unfold managedKey
        simp [hs]
      have hdbw : k ∈ getMediaKeysFromDatabase w :=
        catthumb_mem_dbKeys hc htc hs
      refine ⟨(hb1 k).2 ⟨hkb, fun ho => ?_⟩, hman⟩
      exact (mem_orphanedOf.1 ho).2 hdbw
  have horph : orphanedOf (runClean w).w = [] := by
    unfold orphanedOf
    refine List.filter_eq_nil_iff.mpr fun k hk => ?_
    simp only [Bool.not_eq_true', decide_eq_false_iff_not, Decidable.not_not,
      Bool.not_eq_eq_eq_not, Bool.not_true]
    simp [hdb1 k hk]
  have hdang : danglingOf (runClean w).w = [] := by
    unfold danglingOf
    refine List.filter_eq_nil_iff.mpr fun k hk => ?_
    simp [hr21 k hk]
  rw [(runClean_spec (runClean w).w).1, horph, hdang]
  rfl

/-- World for the C6 counterexample: a dangling product thumbnail under the
bare `img/product/` prefix. -/
def wC6 : World := ⟨[⟨some "img/product/a", []⟩], [], []⟩

/-- Counterexample to C6 as stated: after a successful first run the second
run still reports one dangling reference — the first run counted the bare
`img/product/` thumbnail but did not repair it, so consecutive runs are not
idempotent. -/
theorem c6_counterexample :
    (runClean (runClean wC6).w).res ≠ ⟨0, 0⟩ ∧
    (runClean (runClean wC6).w).res = ⟨0, 1⟩ := by
  decide

/-- World for the C6 witness: thumbnail under the thumbnail prefix (stored),
a dangling gallery key, and a dangling category thumbnail. -/
def wC6w : World :=
  ⟨[⟨some "img/product/thumbnail/t", ["img/product/i"]⟩],
    [⟨some "img/category/thumbnail/c"⟩], ["img/product/thumbnail/t"]⟩

/-- Witness for C6 (amended): at a concrete state satisfying the hypothesis,
the second run returns zero counts. -/
theorem c6_idempotent_witness :
    (runClean (runClean wC6w).w).res = ⟨0, 0⟩ :=
  c6_idempotent wC6w (by
    intro p hp t ht hs
    simp only [wC6w, List.mem_singleton] at hp
    subst hp
    simp only at ht
    rw [Option.some.injEq] at ht
    subst ht
    exact Or.inl (by decide))

/-! ### The managed-prefix blast radius -/

/-- An operation stays inside the managed prefixes: listing only uses the
three configured prefixes and yields managed keys; deletes and document
updates only carry managed keys. -/
def opManaged : Op → Prop
  | .listR2 p ks => (p = productImagePre ∨ p = productThumbnailPre ∨
      p = categoryThumbnailPre) ∧ ∀ k ∈ ks, managedKey k = true
  | .deleteBatch ks => ∀ k ∈ ks, managedKey k = true
  | .pullImages ks => ∀ k ∈ ks, managedKey k = true
  | .setProductThumbsNull ks => ∀ k ∈ ks, managedKey k = true
  | .setCategoryThumbsNull ks => ∀ k ∈ ks, managedKey k = true
  | _ => True

/-- A key under the product-image prefix is managed. -/
theorem managed_of_image {k : String}
    (h : startsW k productImagePre = true) : managedKey k = true := by
  unfold managedKey
  simp [h]

/-- A key under the product-thumbnail prefix is managed. -/
theorem managed_of_thumb {k : String}
    (h : startsW k productThumbnailPre = true) : managedKey k = true := by
  unfold managedKey
  simp [h]

/-- A key under the category-thumbnail prefix is managed. -/
theorem managed_of_catthumb {k : String}
    (h : startsW k categoryThumbnailPre = true) : managedKey k = true := by
  unfold managedKey
  simp [h]

/-- Every delete call a batch loop issues (on any failure behaviour) either
was already in the trace or carries one of the supplied batches. -/
theorem runBatches_tr_sub (fa : Option Nat) :
    ∀ (bs : List (List String)) (i : Nat) (w : World) (tr : List Op),
      ∀ op ∈ exTr (runBatches fa bs i w tr),
        op ∈ tr ∨ ∃ b ∈ bs, op = Op.deleteBatch b
  | [], _, _, tr => fun op hop => Or.inl hop
  | b :: bs, i, w, tr => by
      intro op hop
      simp only [runBatches] at hop
      by_cases hfa : fa = some i
      · simp only [hfa, if_true] at hop
        rcases List.mem_append.1 hop with h | h
        · exact Or.inl h
        · rw [List.mem_singleton] at h
          exact Or.inr ⟨b, List.mem_cons_self b bs, h⟩
      · simp only [hfa, if_false, ite_false] at hop
        rcases runBatches_tr_sub fa bs (i + 1) _ _ op hop with h | ⟨b', hb', h⟩
        · rcases List.mem_append.1 h with h | h
          · exact Or.inl h
          · rw [List.mem_singleton] at h
            exact Or.inr ⟨b, List.mem_cons_self b bs, h⟩
        · exact Or.inr ⟨b', List.mem_cons_of_mem b hb', h⟩

/-- Every update the grouped cleanup issues (on any failure behaviour)
either was already in the trace or is one of the three field-group updates
over the prefix-filtered dangling keys. -/
theorem cleanupDangling_tr_sub (env : Env) (dk : List String) (w : World)
    (tr : List Op) :
    ∀ op ∈ exTr (cleanupDangling env dk w tr), op ∈ tr ∨
      op = Op.pullImages (dk.filter (fun k => startsW k productImagePre)) ∨
      op = Op.setProductThumbsNull
        (dk.filter (fun k => startsW k productThumbnailPre)) ∨
      op = Op.setCategoryThumbsNull
        (dk.filter (fun k => startsW k categoryThumbnailPre)) := by
  intro op hop
  unfold cleanupDangling at hop
  by_cases hdk : dk.isEmpty = true
  · simp only [hdk, if_true] at hop
    exact Or.inl hop
  · simp only [hdk, Bool.false_eq_true, if_false, ite_false] at hop
    have key : op ∈ (tr ++
        (if (dk.filter (fun k => startsW k productImagePre)).isEmpty then []
          else [Op.pullImages
            (dk.filter (fun k => startsW k productImagePre))]) ++
        (if (dk.filter (fun k => startsW k productThumbnailPre)).isEmpty
          then [] else [Op.setProductThumbsNull
            (dk.filter (fun k => startsW k productThumbnailPre))]) ++
        (if (dk.filter (fun k => startsW k categoryThumbnailPre)).isEmpty
          then [] else [Op.setCategoryThumbsNull
            (dk.filter (fun k => startsW k categoryThumbnailPre))])) →
        op ∈ tr ∨
        op = Op.pullImages (dk.filter (fun k => startsW k productImagePre)) ∨
        op = Op.setProductThumbsNull
          (dk.filter (fun k => startsW k productThumbnailPre)) ∨
        op = Op.setCategoryThumbsNull
          (dk.filter (fun k => startsW k categoryThumbnailPre)) := by
      intro hmem
      rcases List.mem_append.1 hmem with hmem | hmem
      · rcases List.mem_append.1 hmem with hmem | hmem
        · rcases List.mem_append.1 hmem with hmem | hmem
          · exact Or.inl hmem
          · by_cases hx : ((dk.filter
                (fun k => startsW k productImagePre)).isEmpty) = true
            · rw [if_pos hx] at hmem
              cases hmem
            · rw [if_neg hx, List.mem_singleton] at hmem
              exact Or.inr (Or.inl hmem)
        · by_cases hx : ((dk.filter
              (fun k => startsW k productThumbnailPre)).isEmpty) = true
          · rw [if_pos hx] at hmem
            cases hmem
          · rw [if_neg hx, List.mem_singleton] at hmem
            exact Or.inr (Or.inr (Or.inl hmem))
      · by_cases hx : ((dk.filter
            (fun k => startsW k categoryThumbnailPre)).isEmpty) = true
        · rw [if_pos hx] at hmem
          cases hmem
        · rw [if_neg hx, List.mem_singleton] at hmem
          exact Or.inr (Or.inr (Or.inr hmem))
    split at hop
    · exact key hop
    · exact key hop

/-- C7: for every starting flag, failure environment and world state, every
operation the media reconciliation run issues stays inside the managed
prefixes: listings use only the three configured prefixes and return only
managed keys, every deleted key is managed, and every key removed from a
document field is managed. -/
theorem c7_managed_blast_radius (flag : Bool) (env : Env) (w : World) :
    ∀ op ∈ (cleanupMediaFiles flag env w).tr, opManaged op := by
  have htr0 : ∀ op ∈ ([Op.dbQuery,
      Op.listR2 productImagePre (listedKeys w productImagePre),
      Op.listR2 productThumbnailPre (listedKeys w productThumbnailPre),
      Op.listR2 categoryThumbnailPre (listedKeys w categoryThumbnailPre)] :
        List Op), opManaged op := by
    intro op hop
    simp only [List.mem_cons, List.not_mem_nil, or_false] at hop
    rcases hop with rfl | rfl | rfl | rfl
    · exact trivial
    · exact ⟨Or.inl rfl, fun k hk =>
        managed_of_image (List.mem_filter.1 hk).2⟩
    · exact ⟨Or.inr (Or.inl rfl), fun k hk =>
        managed_of_thumb (List.mem_filter.1 hk).2⟩
    · exact ⟨Or.inr (Or.inr rfl), fun k hk =>
        managed_of_catthumb (List.mem_filter.1 hk).2⟩
  have hbatch : ∀ b ∈ chunks (orphanedOf w),
      opManaged (Op.deleteBatch b) := by
    intro b hb k hk
    have h1 : k ∈ orphanedOf w := by
      rw [← chunks_join (orphanedOf w)]
      exact List.mem_flatten.2 ⟨b, hb, hk⟩
    exact (mem_r2Keys.1 (mem_orphanedOf.1 h1).1).2
  have hgroup : ∀ dk : List String,
      opManaged (Op.pullImages
        (dk.filter (fun k => startsW k productImagePre))) ∧
      opManaged (Op.setProductThumbsNull
        (dk.filter (fun k => startsW k productThumbnailPre))) ∧
      opManaged (Op.setCategoryThumbsNull
        (dk.filter (fun k => startsW k categoryThumbnailPre))) :=
    fun dk =>
      ⟨fun k hk => managed_of_image (List.mem_filter.1 hk).2,
        fun k hk => managed_of_thumb (List.mem_filter.1 hk).2,
        fun k hk => managed_of_catthumb (List.mem_filter.1 hk).2⟩
  intro op hop
  cases flag with
  | true => simp [cleanupMediaFiles] at hop
  | false =>
    by_cases hdb : env.dbFails = true
    · simp only [cleanupMediaFiles, Bool.false_eq_true, if_false, ite_false,
        hdb, if_true, List.mem_singleton] at hop
      subst hop
      exact trivial
    · rw [Bool.not_eq_true] at hdb
      by_cases hl : env.listFails = true
      · simp only [cleanupMediaFiles, Bool.false_eq_true, if_false,
          ite_false, hdb, hl, if_true, List.mem_cons, List.not_mem_nil,
          or_false] at hop
        rcases hop with rfl | rfl
        · exact trivial
        · exact ⟨Or.inl rfl, by simp⟩
      · rw [Bool.not_eq_true] at hl
        rcases hres : deleteOrphanedR2Files env.batchFailsAt (orphanedOf w) w
          [Op.dbQuery,
            Op.listR2 productImagePre (listedKeys w productImagePre),
            Op.listR2 productThumbnailPre (listedKeys w productThumbnailPre),
            Op.listR2 categoryThumbnailPre
              (listedKeys w categoryThumbnailPre)]
          with ⟨w1, tr1⟩ | ⟨w1, tr1⟩
        · have hres' := hres
          simp only [orphanedOf] at hres'
          simp only [cleanupMediaFiles, Bool.false_eq_true, if_false,
            ite_false, hdb, hl, hres'] at hop
          have hExTr : op ∈ exTr (runBatches env.batchFailsAt
              (chunks (orphanedOf w)) 0 w
              [Op.dbQuery,
                Op.listR2 productImagePre (listedKeys w productImagePre),
                Op.listR2 productThumbnailPre
                  (listedKeys w productThumbnailPre),
                Op.listR2 categoryThumbnailPre
                  (listedKeys w categoryThumbnailPre)]) := by
            rw [show runBatches env.batchFailsAt (chunks (orphanedOf w)) 0 w
                [Op.dbQuery,
                  Op.listR2 productImagePre (listedKeys w productImagePre),
                  Op.listR2 productThumbnailPre
                    (listedKeys w productThumbnailPre),
                  Op.listR2 categoryThumbnailPre
                    (listedKeys w categoryThumbnailPre)] =
              Except.error (w1, tr1) from hres]
            exact hop
          rcases runBatches_tr_sub env.batchFailsAt (chunks (orphanedOf w))
              0 w _ op hExTr with h | ⟨b, hb, rfl⟩
          · exact htr0 op h
          · exact hbatch b hb
        · have hres' := hres
          simp only [orphanedOf] at hres'
          rcases hdan : cleanupDangling env (danglingOf w) w1 tr1
            with ⟨w2, tr2⟩ | ⟨w2, tr2⟩
          · have hdan' := hdan
            simp only [danglingOf] at hdan'
            simp only [cleanupMediaFiles, Bool.false_eq_true, if_false,
              ite_false, hdb, hl, hres', hdan'] at hop
            have hsub := cleanupDangling_tr_sub env (danglingOf w) w1 tr1 op
              (by rw [hdan]; exact hop)
            rcases hsub with h | h | h | h
            · have hExTr : op ∈ exTr (runBatches env.batchFailsAt
                  (chunks (orphanedOf w)) 0 w
                  [Op.dbQuery,
                    Op.listR2 productImagePre (listedKeys w productImagePre),
                    Op.listR2 productThumbnailPre
                      (listedKeys w productThumbnailPre),
                    Op.listR2 categoryThumbnailPre
                      (listedKeys w categoryThumbnailPre)]) := by
                rw [show runBatches env.batchFailsAt (chunks (orphanedOf w))
                    0 w
                    [Op.dbQuery,
                      Op.listR2 productImagePre
                        (listedKeys w productImagePre),
                      Op.listR2 productThumbnailPre
                        (listedKeys w productThumbnailPre),
                      Op.listR2 categoryThumbnailPre
                        (listedKeys w categoryThumbnailPre)] =
                  Except.ok (w1, tr1) from hres]
                exact h
              rcases runBatches_tr_sub env.batchFailsAt
                  (chunks (orphanedOf w)) 0 w _ op hExTr
                with h2 | ⟨b, hb, rfl⟩
              · exact htr0 op h2
              · exact hbatch b hb
            · subst h
              exact (hgroup (danglingOf w)).1
            · subst h
              exact (hgroup (danglingOf w)).2.1
            · subst h
              exact (hgroup (danglingOf w)).2.2
          · have hdan' := hdan
            simp only [danglingOf] at hdan'
            simp only [cleanupMediaFiles, Bool.false_eq_true, if_false,
              ite_false, hdb, hl, hres', hdan'] at hop
            have hsub := cleanupDangling_tr_sub env (danglingOf w) w1 tr1 op
              (by rw [hdan]; exact hop)
            rcases hsub with h | h | h | h
            · have hExTr : op ∈ exTr (runBatches env.batchFailsAt
                  (chunks (orphanedOf w)) 0 w
                  [Op.dbQuery,
                    Op.listR2 productImagePre (listedKeys w productImagePre),
                    Op.listR2 productThumbnailPre
                      (listedKeys w productThumbnailPre),
                    Op.listR2 categoryThumbnailPre
                      (listedKeys w categoryThumbnailPre)]) := by
                rw [show runBatches env.batchFailsAt (chunks (orphanedOf w))
                    0 w
                    [Op.dbQuery,
                      Op.listR2 productImagePre
                        (listedKeys w productImagePre),
                      Op.listR2 productThumbnailPre
                        (listedKeys w productThumbnailPre),
                      Op.listR2 categoryThumbnailPre
                        (listedKeys w categoryThumbnailPre)] =
                  Except.ok (w1, tr1) from hres]
                exact h
              rcases runBatches_tr_sub env.batchFailsAt
                  (chunks (orphanedOf w)) 0 w _ op hExTr
                with h2 | ⟨b, hb, rfl⟩
              · exact htr0 op h2
              · exact hbatch b hb
            · subst h
              exact (hgroup (danglingOf w)).1
            · subst h
              exact (hgroup (danglingOf w)).2.1
            · subst h
              exact (hgroup (danglingOf w)).2.2

/-- Scenario A/B world: thumbnail `K1` referenced and stored, `K2` stored
but unreferenced, gallery key `K3` referenced but not stored. -/
def wAB : World :=
  ⟨[⟨some "img/product/thumbnail/K1", ["img/product/K3"]⟩], [],
    ["img/product/thumbnail/K1", "img/product/K2"]⟩

/-- Witness for C2 at the scenario A/B world: counts are the difference-set
cardinalities (here 1 and 1), the unreferenced `K2` is deleted while the
referenced `K1` is untouched, and the dangling `K3` is pulled from the
gallery. -/
theorem c2_reconcile_exact_witness :
    (runClean wAB).res.orphanedR2Files =
        ((getMediaKeysFromR2 wAB).toFinset \
          (getMediaKeysFromDatabase wAB).toFinset).card ∧
    ("img/product/K2" ∈ (runClean wAB).w.bucket ↔
        "img/product/K2" ∈ wAB.bucket ∧
          ("img/product/K2" ∈ getMediaKeysFromR2 wAB →
            "img/product/K2" ∈ getMediaKeysFromDatabase wAB)) ∧
    (runClean wAB).w.products = wAB.products.map (fixProduct wAB.bucket) ∧
    (runClean wAB).res = ⟨1, 1⟩ ∧
    (runClean wAB).w.bucket = ["img/product/thumbnail/K1"] ∧
    (runClean wAB).w.products =
      [⟨some "img/product/thumbnail/K1", []⟩] :=
  ⟨(c2_reconcile_exact wAB).1, (c2_reconcile_exact wAB).2.2.1 "img/product/K2",
    (c2_reconcile_exact wAB).2.2.2.1, by decide, by decide, by decide⟩

/-- World for the C7 witness. -/
def wC7 : World :=
  ⟨[⟨some "img/product/thumbnail/k7", []⟩], [],
    ["img/product/k7orphan", "other/untouched"]⟩

/-- Witness for C7 at a concrete world: the first listing operation of a
failure-free run is managed. -/
theorem c7_managed_blast_radius_witness :
    opManaged (Op.listR2 productImagePre (listedKeys wC7 productImagePre)) :=
  c7_managed_blast_radius false okEnv wC7
    (Op.listR2 productImagePre (listedKeys wC7 productImagePre)) (by decide)

end AtStore
